import Mathlib

/-!
Shallow embedding of the procedural road-growth engine from the repository
`Road-generation` (source files `normal_city_unplanned.py`,
`normal_city_unplanned_enhance.py`, `Simcity_surburbs.py`).

Modelling conventions.

* Python floats are idealised as rationals (`ℚ`); a position is a pair.
* `scipy.spatial.KDTree.query(pos, k=1)` returns the Euclidean distance to
  the nearest indexed point together with that point's index.  The model
  returns the squared distance instead and compares it against squared
  thresholds; all thresholds in the source are nonnegative, so
  `d >= thresh` and `d^2 >= thresh^2` are equivalent tests.  The KD-tree
  itself is modelled as the list of positions it indexes (`Option`, since
  `self.kd_tree` starts out as Python `None`).
* Randomness is replaced by an oracle: each `grow_city` call consumes a
  `StepOracle` holding the recovery draw and, for every attempt, the unit
  direction vector `(cos angle, sin angle)` that the sampled angle induces.
  Quantifying over all oracles quantifies over all outcomes of the draws.
* The two variants `normal_city_unplanned_enhance.py` and
  `Simcity_surburbs.py` are line-for-line identical up to three
  growth-policy parameters (validity threshold, radius ladder, grid snap);
  they are embedded once, parametrised by `LConfig`, and instantiated as
  `enhanceCfg` and `suburbsCfg`.  `normal_city_unplanned.py` differs
  structurally (no dirty flag, periodic rebuild, exact-position merge
  lookup) and is embedded separately (`NState` and friends).
* `matplotlib`/`networkx` rendering state is out of scope; `road_graph` is
  determined by the keys of `road_ages` and is not modelled separately.
-/

/-- A 2-D position, idealising the Python float pair `(x, y)`. -/
abbrev Point := ℚ × ℚ

/-- Squared Euclidean distance between two positions. -/
def distSq (p q : Point) : ℚ := (p.1 - q.1) ^ 2 + (p.2 - q.2) ^ 2

/-- Value of `self.min_distance` (`0.03`) shared by all three variants. -/
def minDistance : ℚ := 3 / 100

/-- Linear scan behind the nearest-neighbour query: `i` is the index of the
head of the remaining list, `best` the best `(squared distance, index)` pair
found so far (earlier indices win ties, matching a deterministic tree). -/
def nearestAux (p : Point) : List Point → ℕ → ℚ × ℕ → ℚ × ℕ
  | [], _, best => best
  | q :: rest, i, best =>
    nearestAux p rest (i + 1) (if distSq p q < best.1 then (distSq p q, i) else best)

/-- Nearest-neighbour query of the spatial index, mirroring
`KDTree.query(pos, k=1)` but returning the squared distance; `none` on an
empty index (the source never queries an empty tree). -/
def nearest (tree : List Point) (p : Point) : Option (ℚ × ℕ) :=
  match tree with
  | [] => none
  | q :: rest => some (nearestAux p rest 1 (distSq p q, 0))

/-- The random draws consumed by one `grow_city` call: the id drawn by the
empty-frontier recovery branch, and the unit direction `(cos a, sin a)` of
each sampled angle `a`.  The list length is the drawn attempt count, in the
source an integer in `{1, 2, 3}`. -/
structure StepOracle where
  recoveryChoice : ℕ
  dirs : List Point
deriving DecidableEq

/-- Which branch a single growth attempt took inside `grow_city`. -/
inductive AttemptOutcome where
  /-- `_find_valid_position` returned `None`: the attempt was abandoned. -/
  | noCandidate : AttemptOutcome
  /-- The nearest-node distance was below the merge threshold: a road to
  the existing node `nodeId` was added, no node was created. -/
  | merged (nodeId : ℕ) : AttemptOutcome
  /-- A new node `nodeId` was created and a road to it added. -/
  | created (nodeId : ℕ) : AttemptOutcome
  /-- `_add_node` rejected the candidate after it had been found valid. -/
  | rejected : AttemptOutcome
deriving DecidableEq

/-- The three growth-policy parameters in which
`normal_city_unplanned_enhance.py` and `Simcity_surburbs.py` differ:
the squared validity threshold of `_is_valid_position`, the radius ladder
of `_find_valid_position`, and the post-offset snapping applied to raw
candidate positions (the identity in the enhance variant). -/
structure LConfig where
  validThreshSq : ℚ
  radii : List ℚ
  snap : Point → Point

/-- Engine state of the two lazy-rebuild variants; the fields mirror the
attributes set in `__init__`: `node_positions` (id = list index),
`road_ages` (insertion-ordered dict from canonical pair to timestamp),
`growth_queue`, `current_time`, `kd_tree`, `kd_tree_dirty`. -/
structure LState where
  nodePositions : List Point
  roadAges : List ((ℕ × ℕ) × ℕ)
  growthQueue : List ℕ
  currentTime : ℕ
  kdTree : Option (List Point)
  kdTreeDirty : Bool
deriving DecidableEq

/-- Number of nodes, the spec interface `node_count()`. -/
def nodeCount (s : LState) : ℕ := s.nodePositions.length

/-- Number of roads, the spec interface `road_count()`. -/
def roadCount (s : LState) : ℕ := s.roadAges.length

/-- `_update_spatial_index`: rebuild the tree from the current positions if
there are any; the dirty flag is cleared unconditionally. -/
def updateSpatialIndex (s : LState) : LState :=
  if s.nodePositions.isEmpty then { s with kdTreeDirty := false }
  else { s with kdTree := some s.nodePositions, kdTreeDirty := false }

/-- The `if self.kd_tree_dirty: self._update_spatial_index()` prelude that
guards every query path of the lazy variants. -/
def ensureFresh (s : LState) : LState :=
  if s.kdTreeDirty then updateSpatialIndex s else s

/-- `_is_valid_position`: lazily rebuild, treat a missing tree as "always
valid", otherwise accept iff the nearest indexed point is at squared
distance at least the variant's threshold. -/
def isValidPosition (cfg : LConfig) (s : LState) (pos : Point) : LState × Bool :=
  let s' := ensureFresh s
  match s'.kdTree with
  | none => (s', true)
  | some tree =>
    match nearest tree pos with
    | none => (s', true)
    | some (d2, _) => (s', decide (cfg.validThreshSq ≤ d2))

/-- Raw candidate position at radius `r` along direction `dir` from `base`,
that is `base + r * (cos angle, sin angle)`. -/
def candidate (base dir : Point) (r : ℚ) : Point :=
  (base.1 + r * dir.1, base.2 + r * dir.2)

/-- Loop body of `_find_valid_position`: walk the radius ladder in order and
return the first (snapped) candidate the spacing check accepts, threading
the state because the check may rebuild the index. -/
def findValidAux (cfg : LConfig) : LState → Point → Point → List ℚ → LState × Option Point
  | s, _, _, [] => (s, none)
  | s, base, dir, r :: rs =>
    let pos := cfg.snap (candidate base dir r)
    let (s', ok) := isValidPosition cfg s pos
    if ok then (s', some pos) else findValidAux cfg s' base dir rs

/-- `_find_valid_position` over the variant's radius ladder. -/
def findValidPosition (cfg : LConfig) (s : LState) (base dir : Point) :
    LState × Option Point :=
  findValidAux cfg s base dir cfg.radii

/-- `_add_road` on the road dictionary alone: no-op on a self-loop,
canonicalise the pair, insert with timestamp `t` only if absent. -/
def addRoadList (roads : List ((ℕ × ℕ) × ℕ)) (t : ℕ) (node1 node2 : ℕ) :
    List ((ℕ × ℕ) × ℕ) :=
  if node1 = node2 then roads
  else
    let roadId := (min node1 node2, max node1 node2)
    if roadId ∈ roads.map Prod.fst then roads
    else roads ++ [(roadId, t)]

/-- `_add_road` of the lazy variants, stamping with `self.current_time`. -/
def addRoad (s : LState) (node1 node2 : ℕ) : LState :=
  { s with roadAges := addRoadList s.roadAges s.currentTime node1 node2 }

/-- `_add_node` of the lazy variants: validate, then append the position,
push the new id onto the growth queue, and mark the index dirty. -/
def addNode (cfg : LConfig) (s : LState) (pos : Point) : LState × Option ℕ :=
  match isValidPosition cfg s pos with
  | (s', false) => (s', none)
  | (s', true) =>
    let nodeId := s'.nodePositions.length
    ({ s' with
        nodePositions := s'.nodePositions ++ [pos],
        growthQueue := s'.growthQueue ++ [nodeId],
        kdTreeDirty := true }, some nodeId)

/-- One directional growth attempt from the dequeued node `nodeId` at
position `pos` (the body of the `for` loop in `grow_city` of the lazy
variants), together with the branch it took. -/
def growAttempt (cfg : LConfig) (s : LState) (nodeId : ℕ) (pos dir : Point) :
    LState × AttemptOutcome :=
  match findValidPosition cfg s pos dir with
  | (s1, none) => (s1, .noCandidate)
  | (s1, some newPos) =>
    let s2 := ensureFresh s1
    match s2.kdTree with
    | none => (s2, .rejected)
    | some tree =>
      match nearest tree newPos with
      | none => (s2, .rejected)
      | some (d2, idx) =>
        if d2 < (minDistance * (1 / 2)) ^ 2 then
          (addRoad s2 nodeId idx, .merged idx)
        else
          match addNode cfg s2 newPos with
          | (s3, some newId) => (addRoad s3 nodeId newId, .created newId)
          | (s3, none) => (s3, .rejected)

/-- Run the attempts of one step in sequence, collecting their outcomes. -/
def growAttempts (cfg : LConfig) : LState → ℕ → Point → List Point →
    LState × List AttemptOutcome
  | s, _, _, [] => (s, [])
  | s, nodeId, pos, d :: ds =>
    let (s', out) := growAttempt cfg s nodeId pos d
    let (s'', outs) := growAttempts cfg s' nodeId pos ds
    (s'', out :: outs)

/-- `grow_city` of the lazy variants, also reporting the attempt outcomes:
recover an empty frontier without touching the clock, otherwise advance the
clock, dequeue one node and run the drawn attempts from its position. -/
def growCityRun (cfg : LConfig) (s : LState) (o : StepOracle) :
    LState × List AttemptOutcome :=
  match s.growthQueue with
  | [] =>
    if s.nodePositions.isEmpty then (s, [])
    else ({ s with growthQueue := [o.recoveryChoice] }, [])
  | nodeId :: rest =>
    let s1 := { s with currentTime := s.currentTime + 1, growthQueue := rest }
    match s1.nodePositions.get? nodeId with
    | none => (s1, [])
    | some pos => growAttempts cfg s1 nodeId pos o.dirs

/-- `grow_city` of the lazy variants (state part only). -/
def growCity (cfg : LConfig) (s : LState) (o : StepOracle) : LState :=
  (growCityRun cfg s o).1

/-- State before `__init__` adds the origin node. -/
def emptyLState : LState :=
  { nodePositions := [], roadAges := [], growthQueue := [], currentTime := 0,
    kdTree := none, kdTreeDirty := false }

/-- State right after `__init__`, whose only node is the origin. -/
def initLState (cfg : LConfig) : LState := (addNode cfg emptyLState (0, 0)).1

/-- States reachable from the freshly initialised engine by `grow_city`
calls under arbitrary draws. -/
inductive LReachable (cfg : LConfig) : LState → Prop where
  | init : LReachable cfg (initLState cfg)
  | step (s : LState) (o : StepOracle) :
      LReachable cfg s → LReachable cfg (growCity cfg s o)

/-- Radius ladder `np.linspace(min_distance, 2 * min_distance, 5)` of
`normal_city_unplanned.py` and `normal_city_unplanned_enhance.py`. -/
def radii5 : List ℚ :=
  [minDistance, 5 / 4 * minDistance, 3 / 2 * minDistance,
   7 / 4 * minDistance, 2 * minDistance]

/-- Radius ladder `np.linspace(min_distance, 2 * min_distance, 3)` of
`Simcity_surburbs.py`. -/
def radii3 : List ℚ := [minDistance, 3 / 2 * minDistance, 2 * minDistance]

/-- Configuration of `normal_city_unplanned_enhance.py`: validity threshold
`min_distance`, five radii, no snapping. -/
def enhanceCfg : LConfig :=
  { validThreshSq := minDistance ^ 2, radii := radii5, snap := fun p => p }

/-- Python `round`: nearest integer, ties to the even integer. -/
def pyRound (q : ℚ) : ℤ :=
  if q - ⌊q⌋ < 1 / 2 then ⌊q⌋
  else if 1 / 2 < q - ⌊q⌋ then ⌊q⌋ + 1
  else if Even ⌊q⌋ then ⌊q⌋ else ⌊q⌋ + 1

/-- `_snap_to_grid` of `Simcity_surburbs.py`, with
`self.grid_size = self.min_distance`. -/
def snapToGrid (p : Point) : Point :=
  ((pyRound (p.1 / minDistance) : ℚ) * minDistance,
   (pyRound (p.2 / minDistance) : ℚ) * minDistance)

/-- Configuration of `Simcity_surburbs.py`: validity threshold
`0.9 * min_distance`, three radii, grid snapping. -/
def suburbsCfg : LConfig :=
  { validThreshSq := (9 / 10 * minDistance) ^ 2, radii := radii3,
    snap := snapToGrid }

/-!
Embedding of `normal_city_unplanned.py`.  This variant has no dirty flag:
`_add_node` rebuilds the tree only after every 10th insertion, and
`_is_valid_position` queries whatever tree is currently cached.  The merge
check in `grow_city` is an exact-position dictionary lookup
(`position_to_node`, modelled as an association list with the newest entry
first, matching last-write-wins dictionary updates). -/
structure NState where
  nodePositions : List Point
  positionToNode : List (Point × ℕ)
  roadAges : List ((ℕ × ℕ) × ℕ)
  growthQueue : List ℕ
  currentTime : ℕ
  kdTree : Option (List Point)
deriving DecidableEq

/-- Number of nodes of the periodic-rebuild variant. -/
def nNodeCount (s : NState) : ℕ := s.nodePositions.length

/-- Number of roads of the periodic-rebuild variant. -/
def nRoadCount (s : NState) : ℕ := s.roadAges.length

/-- `_update_spatial_index` of `normal_city_unplanned.py`. -/
def nUpdateSpatialIndex (s : NState) : NState :=
  if s.nodePositions.isEmpty then s else { s with kdTree := some s.nodePositions }

/-- `_is_valid_position` of `normal_city_unplanned.py`: queries the cached
tree as-is, with no rebuild. -/
def nIsValidPosition (s : NState) (pos : Point) : Bool :=
  match s.kdTree with
  | none => true
  | some tree =>
    match nearest tree pos with
    | none => true
    | some (d2, _) => decide (minDistance ^ 2 ≤ d2)

/-- Loop body of `_find_valid_position` of `normal_city_unplanned.py`. -/
def nFindValidAux (s : NState) (base dir : Point) : List ℚ → Option Point
  | [] => none
  | r :: rs =>
    if nIsValidPosition s (candidate base dir r) then some (candidate base dir r)
    else nFindValidAux s base dir rs

/-- `_find_valid_position` of `normal_city_unplanned.py` (five radii). -/
def nFindValidPosition (s : NState) (base dir : Point) : Option Point :=
  nFindValidAux s base dir radii5

/-- `_add_node` of `normal_city_unplanned.py`: validate, append the
position, record it in `position_to_node`, push the id onto the growth
queue, and rebuild the index only when the new id is a multiple of 10. -/
def nAddNode (s : NState) (pos : Point) : NState × Option ℕ :=
  if nIsValidPosition s pos then
    let nodeId := s.nodePositions.length
    let s' := { s with
        nodePositions := s.nodePositions ++ [pos],
        positionToNode := (pos, nodeId) :: s.positionToNode,
        growthQueue := s.growthQueue ++ [nodeId] }
    (if nodeId % 10 = 0 then nUpdateSpatialIndex s' else s', some nodeId)
  else (s, none)

/-- `_add_road` of `normal_city_unplanned.py`. -/
def nAddRoad (s : NState) (node1 node2 : ℕ) : NState :=
  { s with roadAges := addRoadList s.roadAges s.currentTime node1 node2 }

/-- One growth attempt of `normal_city_unplanned.py`: find a candidate,
merge via the exact-position lookup when it already names a node, create
otherwise. -/
def nGrowAttempt (s : NState) (nodeId : ℕ) (pos dir : Point) :
    NState × AttemptOutcome :=
  match nFindValidPosition s pos dir with
  | none => (s, .noCandidate)
  | some newPos =>
    match (s.positionToNode.find? (fun e => e.1 = newPos)).map Prod.snd with
    | some existing => (nAddRoad s nodeId existing, .merged existing)
    | none =>
      match nAddNode s newPos with
      | (s', some newId) => (nAddRoad s' nodeId newId, .created newId)
      | (s', none) => (s', .rejected)

/-- Run the attempts of one step of the periodic-rebuild variant. -/
def nGrowAttempts : NState → ℕ → Point → List Point → NState × List AttemptOutcome
  | s, _, _, [] => (s, [])
  | s, nodeId, pos, d :: ds =>
    let (s', out) := nGrowAttempt s nodeId pos d
    let (s'', outs) := nGrowAttempts s' nodeId pos ds
    (s'', out :: outs)

/-- `grow_city` of `normal_city_unplanned.py` with attempt outcomes. -/
def nGrowCityRun (s : NState) (o : StepOracle) : NState × List AttemptOutcome :=
  match s.growthQueue with
  | [] =>
    if s.nodePositions.isEmpty then (s, [])
    else ({ s with growthQueue := [o.recoveryChoice] }, [])
  | nodeId :: rest =>
    let s1 := { s with currentTime := s.currentTime + 1, growthQueue := rest }
    match s1.nodePositions.get? nodeId with
    | none => (s1, [])
    | some pos => nGrowAttempts s1 nodeId pos o.dirs

/-- `grow_city` of `normal_city_unplanned.py` (state part only). -/
def nGrowCity (s : NState) (o : StepOracle) : NState :=
  (nGrowCityRun s o).1

/-- State before `__init__` of `normal_city_unplanned.py` adds the origin. -/
def emptyNState : NState :=
  { nodePositions := [], positionToNode := [], roadAges := [], growthQueue := [],
    currentTime := 0, kdTree := none }

/-- State right after `__init__` of `normal_city_unplanned.py`. -/
def initNState : NState := (nAddNode emptyNState (0, 0)).1

/-- States of the periodic-rebuild variant reachable from initialisation. -/
inductive NReachable : NState → Prop where
  | init : NReachable initNState
  | step (s : NState) (o : StepOracle) :
      NReachable s → NReachable (nGrowCity s o)

/-- A direction actually producible by the angle draws: a point on the unit
circle, `(cos a, sin a)`. -/
def unitDir (d : Point) : Prop := d.1 ^ 2 + d.2 ^ 2 = 1

/-- Verdict of `_is_valid_position` of the lazy variants (the Bool part). -/
def validAt (cfg : LConfig) (s : LState) (pos : Point) : Bool :=
  (isValidPosition cfg s pos).2

/-- Well-formedness of the road dictionary: keys are pairwise distinct and
in canonical (strictly increasing) order, so no two entries share the same
unordered endpoint pair and no entry is a self-loop. -/
def RoadsWF (roads : List ((ℕ × ℕ) × ℕ)) : Prop :=
  (roads.map Prod.fst).Nodup ∧ ∀ k ∈ roads.map Prod.fst, k.1 < k.2

/-- Engine invariant of the lazy variants: the node set is never empty, the
index is either marked dirty or indexes exactly the current node set, and
all node pairs respect the variant's spacing threshold. -/
def LInv (cfg : LConfig) (s : LState) : Prop :=
  s.nodePositions ≠ [] ∧
  (s.kdTreeDirty = true ∨ s.kdTree = some s.nodePositions) ∧
  s.nodePositions.Pairwise (fun p q => cfg.validThreshSq ≤ distSq p q)

/-- Draws of the first demonstration step: one attempt due east. -/
def nCexO1 : StepOracle := ⟨0, [(1, 0)]⟩

/-- Draws of the second demonstration step: one attempt due north. -/
def nCexO2 : StepOracle := ⟨0, [(0, 1)]⟩

/-- Draws of the third demonstration step: one attempt along the unit
direction `(3/5, -4/5)`. -/
def nCexO3 : StepOracle := ⟨0, [(3 / 5, -4 / 5)]⟩

/-- Periodic-rebuild engine after two growth steps: nodes `0, 1, 2` exist
but the KD-tree still only indexes the origin (next rebuild at id 10). -/
def nStaleState : NState := nGrowCity (nGrowCity initNState nCexO1) nCexO2

/-- Periodic-rebuild engine after three growth steps: the stale index has
let node 3 in at distance below `min_distance` from node 1. -/
def nCexState : NState := nGrowCity nStaleState nCexO3

/-- A lazy-variant state whose nodes sit exactly on the five candidate
positions of base `(0, 0)` and direction `(1, 0)`, so every radius of that
attempt fails the spacing check. -/
def blockedLState : LState :=
  { nodePositions := radii5.map (fun r => (r, 0)),
    roadAges := [], growthQueue := [], currentTime := 0,
    kdTree := some (radii5.map (fun r => (r, 0))), kdTreeDirty := false }

/-- A snapped-variant state whose nodes sit exactly on the two grid points
that the three radii of base `(0, 0)` and direction `(1, 0)` snap to
(`(min, 0)` for radius `min`, `(2*min, 0)` for radii `1.5*min` and
`2*min`), so every radius of that attempt fails the spacing check. -/
def blockedSState : LState :=
  { nodePositions := [(minDistance, 0), (2 * minDistance, 0)],
    roadAges := [], growthQueue := [], currentTime := 0,
    kdTree := some [(minDistance, 0), (2 * minDistance, 0)], kdTreeDirty := false }

/-- Embedding of a rational position into the complex plane; `dist` on `ℂ`
is the Euclidean plane distance, used to state and prove metric facts
about the engine. -/
def toC (p : Point) : ℂ := ⟨(p.1 : ℝ), (p.2 : ℝ)⟩

/-! Basic facts about distances and the nearest-neighbour scan. -/

theorem distSq_comm (p q : Point) : distSq p q = distSq q p := by
  unfold distSq; ring

theorem distSq_nonneg (p q : Point) : 0 ≤ distSq p q := by
  unfold distSq; positivity

theorem nearestAux_spec (p : Point) (l : List Point) :
    ∀ (i : ℕ) (best : ℚ × ℕ),
      (nearestAux p l i best).1 ≤ best.1 ∧
      (∀ q ∈ l, (nearestAux p l i best).1 ≤ distSq p q) ∧
      ((nearestAux p l i best).1 = best.1 ∨
        ∃ q ∈ l, (nearestAux p l i best).1 = distSq p q) := by
  induction l with
  | nil => intro i best; simp [nearestAux]
  | cons q rest ih =>
    intro i best
    simp only [nearestAux]
    by_cases h : distSq p q < best.1
    · simp only [if_pos h]
      obtain ⟨h1, h2, h3⟩ := ih (i + 1) (distSq p q, i)
      refine ⟨le_trans h1 (le_of_lt h), ?_, ?_⟩
      · intro x hx
        rcases List.mem_cons.mp hx with rfl | hx
        · exact h1
        · exact h2 x hx
      · rcases h3 with h3 | ⟨x, hx, h3⟩
        · exact Or.inr ⟨q, List.mem_cons_self q rest, h3⟩
        · exact Or.inr ⟨x, List.mem_cons_of_mem q hx, h3⟩
    · simp only [if_neg h]
      push_neg at h
      obtain ⟨h1, h2, h3⟩ := ih (i + 1) best
      refine ⟨h1, ?_, ?_⟩
      · intro x hx
        rcases List.mem_cons.mp hx with rfl | hx
        · exact le_trans h1 h
        · exact h2 x hx
      · rcases h3 with h3 | ⟨x, hx, h3⟩
        · exact Or.inl h3
        · exact Or.inr ⟨x, List.mem_cons_of_mem q hx, h3⟩

theorem nearestAux_idx (p : Point) (l : List Point) :
    ∀ (i : ℕ) (best : ℚ × ℕ),
      (nearestAux p l i best).2 = best.2 ∨
        (i ≤ (nearestAux p l i best).2 ∧ (nearestAux p l i best).2 < i + l.length) := by
  induction l with
  | nil => intro i best; simp [nearestAux]
  | cons q rest ih =>
    intro i best
    simp only [nearestAux]
    rcases ih (i + 1) (if distSq p q < best.1 then (distSq p q, i) else best) with
      h | ⟨h1, h2⟩
    · rw [h]
      by_cases hlt : distSq p q < best.1
      · rw [if_pos hlt]
        refine Or.inr ⟨le_rfl, ?_⟩
        simp only [List.length_cons]
        omega
      · rw [if_neg hlt]
        exact Or.inl rfl
    · refine Or.inr ⟨by omega, ?_⟩
      simp only [List.length_cons]
      omega

theorem nearest_le {tree : List Point} {p : Point} {d2 : ℚ} {j : ℕ}
    (h : nearest tree p = some (d2, j)) : ∀ q ∈ tree, d2 ≤ distSq p q := by
  cases tree with
  | nil => simp [nearest] at h
  | cons q rest =>
    simp only [nearest, Option.some.injEq] at h
    have hd : (nearestAux p rest 1 (distSq p q, 0)).1 = d2 := by rw [h]
    obtain ⟨h1, h2, _⟩ := nearestAux_spec p rest 1 (distSq p q, 0)
    intro x hx
    rcases List.mem_cons.mp hx with rfl | hx
    · rw [← hd]
      exact h1
    · rw [← hd]
      exact h2 x hx

theorem nearest_attained {tree : List Point} {p : Point} {d2 : ℚ} {j : ℕ}
    (h : nearest tree p = some (d2, j)) : ∃ q ∈ tree, d2 = distSq p q := by
  cases tree with
  | nil => simp [nearest] at h
  | cons q rest =>
    simp only [nearest, Option.some.injEq] at h
    have hd : (nearestAux p rest 1 (distSq p q, 0)).1 = d2 := by rw [h]
    obtain ⟨_, _, h3⟩ := nearestAux_spec p rest 1 (distSq p q, 0)
    rcases h3 with h3 | ⟨x, hx, h3⟩
    · refine ⟨q, List.mem_cons_self q rest, ?_⟩
      rw [← hd]
      exact h3
    · refine ⟨x, List.mem_cons_of_mem q hx, ?_⟩
      rw [← hd]
      exact h3

theorem nearest_idx_lt {tree : List Point} {p : Point} {d2 : ℚ} {j : ℕ}
    (h : nearest tree p = some (d2, j)) : j < tree.length := by
  cases tree with
  | nil => simp [nearest] at h
  | cons q rest =>
    simp only [nearest, Option.some.injEq] at h
    have hj : (nearestAux p rest 1 (distSq p q, 0)).2 = j := by rw [h]
    rcases nearestAux_idx p rest 1 (distSq p q, 0) with h' | ⟨hl, hr⟩
    · rw [← hj, h']
      simp
    · simp only [List.length_cons]
      omega

theorem nearest_ne_none {tree : List Point} (hne : tree ≠ []) (p : Point) :
    nearest tree p ≠ none := by
  cases tree with
  | nil => exact absurd rfl hne
  | cons q rest => simp [nearest]

/-! Structural facts about the lazy-variant state operations. -/

theorem updateSpatialIndex_fields (s : LState) :
    (updateSpatialIndex s).nodePositions = s.nodePositions ∧
    (updateSpatialIndex s).roadAges = s.roadAges ∧
    (updateSpatialIndex s).growthQueue = s.growthQueue ∧
    (updateSpatialIndex s).currentTime = s.currentTime ∧
    (updateSpatialIndex s).kdTreeDirty = false := by
  unfold updateSpatialIndex
  split <;> simp

theorem ensureFresh_fields (s : LState) :
    (ensureFresh s).nodePositions = s.nodePositions ∧
    (ensureFresh s).roadAges = s.roadAges ∧
    (ensureFresh s).growthQueue = s.growthQueue ∧
    (ensureFresh s).currentTime = s.currentTime ∧
    (ensureFresh s).kdTreeDirty = false := by
  unfold ensureFresh
  split
  · exact updateSpatialIndex_fields s
  · next h => simp_all [Bool.not_eq_true]

theorem ensureFresh_of_not_dirty {s : LState} (h : s.kdTreeDirty = false) :
    ensureFresh s = s := by
  unfold ensureFresh
  simp [h]

theorem ensureFresh_idem (s : LState) : ensureFresh (ensureFresh s) = ensureFresh s :=
  ensureFresh_of_not_dirty (ensureFresh_fields s).2.2.2.2

/-- Under the index invariant, the rebuild-if-dirty prelude always yields an
index over exactly the current node set. -/
theorem ensureFresh_kdTree {s : LState} (hne : s.nodePositions ≠ [])
    (hinv : s.kdTreeDirty = true ∨ s.kdTree = some s.nodePositions) :
    (ensureFresh s).kdTree = some s.nodePositions := by
  unfold ensureFresh updateSpatialIndex
  rcases hinv with hd | ht
  · rw [hd]
    simp only [if_true]
    rw [if_neg (by simpa [List.isEmpty_iff] using hne)]
  · split
    · rw [if_neg (by simpa [List.isEmpty_iff] using hne)]
    · exact ht

theorem isValidPosition_fst (cfg : LConfig) (s : LState) (p : Point) :
    (isValidPosition cfg s p).1 = ensureFresh s := by
  unfold isValidPosition
  cases h : (ensureFresh s).kdTree with
  | none => simp [h]
  | some tree =>
    cases hn : nearest tree p with
    | none => simp [h, hn]
    | some dj => cases dj with
      | mk d2 j => simp [h, hn]

theorem isValidPosition_eq_validAt (cfg : LConfig) (s : LState) (p : Point) :
    isValidPosition cfg s p = (ensureFresh s, validAt cfg s p) := by
  rw [show validAt cfg s p = (isValidPosition cfg s p).2 from rfl,
    ← isValidPosition_fst cfg s p]

theorem validAt_ensureFresh (cfg : LConfig) (s : LState) (p : Point) :
    validAt cfg (ensureFresh s) p = validAt cfg s p := by
  unfold validAt isValidPosition
  rw [ensureFresh_idem]

/-- Characterisation of the validity verdict when the rebuilt index covers
exactly the (nonempty) current node set. -/
theorem validAt_true_iff {cfg : LConfig} {s : LState}
    (hne : s.nodePositions ≠ [])
    (hinv : s.kdTreeDirty = true ∨ s.kdTree = some s.nodePositions) (p : Point) :
    validAt cfg s p = true ↔
      ∀ q ∈ s.nodePositions, cfg.validThreshSq ≤ distSq p q := by
  have hk := ensureFresh_kdTree hne hinv
  simp only [validAt, isValidPosition, hk]
  cases hn : nearest s.nodePositions p with
  | none => exact absurd hn (nearest_ne_none hne p)
  | some dj =>
    cases dj with
    | mk d2 j =>
      simp only [hn, decide_eq_true_eq]
      constructor
      · intro hle q hq
        exact le_trans hle (nearest_le hn q hq)
      · intro hall
        obtain ⟨q, hq, hd⟩ := nearest_attained hn
        rw [hd]
        exact hall q hq

/-- On any state satisfying the index invariant, the validity verdict is
exactly the spacing test against every inserted node. -/
theorem validAt_eq_all {cfg : LConfig} {s : LState}
    (h1 : s.nodePositions ≠ [])
    (h2 : s.kdTreeDirty = true ∨ s.kdTree = some s.nodePositions) (p : Point) :
    validAt cfg s p =
      s.nodePositions.all (fun q => decide (cfg.validThreshSq ≤ distSq p q)) := by
  cases hv : validAt cfg s p with
  | false =>
    cases ha : s.nodePositions.all (fun q => decide (cfg.validThreshSq ≤ distSq p q)) with
    | false => rfl
    | true =>
      rw [← hv]
      refine (validAt_true_iff h1 h2 p).mpr ?_
      intro q hq
      exact of_decide_eq_true ((List.all_eq_true.mp ha) q hq)
  | true =>
    symm
    rw [List.all_eq_true]
    intro q hq
    exact decide_eq_true ((validAt_true_iff h1 h2 p).mp hv q hq)

theorem findValidAux_fst (cfg : LConfig) (base dir : Point) :
    ∀ (rs : List ℚ) (s : LState),
      (findValidAux cfg s base dir rs).1 = s ∨
      (findValidAux cfg s base dir rs).1 = ensureFresh s := by
  intro rs
  induction rs with
  | nil => intro s; exact Or.inl rfl
  | cons r rs ih =>
    intro s
    simp only [findValidAux]
    rw [isValidPosition_eq_validAt]
    cases hok : validAt cfg s (cfg.snap (candidate base dir r))
    · simp only [Bool.false_eq_true, if_false]
      rcases ih (ensureFresh s) with h | h
      · rw [h]
        exact Or.inr rfl
      · rw [h, ensureFresh_idem]
        exact Or.inr rfl
    · simp

theorem findValidAux_some_mem (cfg : LConfig) (base dir : Point) :
    ∀ (rs : List ℚ) (s : LState) (p : Point),
      (findValidAux cfg s base dir rs).2 = some p →
      ∃ r ∈ rs, p = cfg.snap (candidate base dir r) := by
  intro rs
  induction rs with
  | nil => intro s p h; simp [findValidAux] at h
  | cons r rs ih =>
    intro s p h
    simp only [findValidAux] at h
    rw [isValidPosition_eq_validAt] at h
    cases hok : validAt cfg s (cfg.snap (candidate base dir r)) <;> rw [hok] at h
    · simp only [Bool.false_eq_true, if_false] at h
      obtain ⟨r', hr', hp⟩ := ih (ensureFresh s) p h
      exact ⟨r', List.mem_cons_of_mem r hr', hp⟩
    · simp only [if_true, Option.some.injEq] at h
      exact ⟨r, List.mem_cons_self r rs, h.symm⟩

theorem findValidAux_some_valid (cfg : LConfig) (base dir : Point) :
    ∀ (rs : List ℚ) (s : LState) (p : Point),
      (findValidAux cfg s base dir rs).2 = some p →
      validAt cfg s p = true ∧ (findValidAux cfg s base dir rs).1 = ensureFresh s := by
  intro rs
  induction rs with
  | nil => intro s p h; simp [findValidAux] at h
  | cons r rs ih =>
    intro s p h
    simp only [findValidAux] at h ⊢
    rw [isValidPosition_eq_validAt] at h ⊢
    cases hok : validAt cfg s (cfg.snap (candidate base dir r))
    · rw [hok] at h
      simp only [Bool.false_eq_true, if_false] at h ⊢
      obtain ⟨hv, hfst⟩ := ih (ensureFresh s) p h
      rw [validAt_ensureFresh] at hv
      rw [hfst, ensureFresh_idem]
      exact ⟨hv, rfl⟩
    · rw [hok] at h
      simp only [if_true, Option.some.injEq] at h
      subst h
      simp [hok]

/-- The whole `_find_valid_position` loop equals: rebuild-once, then pick the
first candidate of the radius ladder that passes the spacing check. -/
theorem findValidAux_eq_find? (cfg : LConfig) (base dir : Point) :
    ∀ (rs : List ℚ) (s : LState), rs ≠ [] →
      findValidAux cfg s base dir rs =
        (ensureFresh s,
         (rs.map (fun r => cfg.snap (candidate base dir r))).find?
           (fun p => validAt cfg s p)) := by
  intro rs
  induction rs with
  | nil => intro s h; exact absurd rfl h
  | cons r rs ih =>
    intro s _
    simp only [findValidAux, List.map_cons]
    rw [isValidPosition_eq_validAt]
    cases hok : validAt cfg s (cfg.snap (candidate base dir r))
    · simp only [Bool.false_eq_true, if_false]
      rw [List.find?_cons_of_neg _ (by simp [hok])]
      cases rs with
      | nil => simp [findValidAux]
      | cons r' rs' =>
        rw [ih (ensureFresh s) (List.cons_ne_nil r' rs')]
        simp only [ensureFresh_idem, validAt_ensureFresh]
    · simp only [if_true]
      rw [List.find?_cons_of_pos _ (by simp [hok])]

theorem addRoadList_length_le (roads : List ((ℕ × ℕ) × ℕ)) (t : ℕ) (a b : ℕ) :
    (addRoadList roads t a b).length ≤ roads.length + 1 := by
  unfold addRoadList
  by_cases hab : a = b
  · simp [hab]
  · simp only [if_neg hab]
    by_cases hmem : (min a b, max a b) ∈ roads.map Prod.fst
    · simp [hmem]
    · simp [hmem]

theorem addNode_none_spec {cfg : LConfig} {s s2 : LState} {p : Point}
    (h : addNode cfg s p = (s2, none)) :
    s2 = ensureFresh s ∧ validAt cfg s p = false := by
  unfold addNode at h
  rw [isValidPosition_eq_validAt] at h
  cases hv : validAt cfg s p <;> rw [hv] at h
  · simp only [Prod.mk.injEq] at h
    exact ⟨h.1.symm, rfl⟩
  · simp at h

theorem addNode_some_spec {cfg : LConfig} {s s2 : LState} {p : Point} {id : ℕ}
    (h : addNode cfg s p = (s2, some id)) :
    id = s.nodePositions.length ∧
    s2.nodePositions = s.nodePositions ++ [p] ∧
    s2.roadAges = s.roadAges ∧
    s2.growthQueue = s.growthQueue ++ [id] ∧
    s2.currentTime = s.currentTime ∧
    s2.kdTreeDirty = true ∧
    validAt cfg s p = true := by
  unfold addNode at h
  rw [isValidPosition_eq_validAt] at h
  obtain ⟨hnp, hra, hgq, hct, _⟩ := ensureFresh_fields s
  cases hv : validAt cfg s p <;> rw [hv] at h
  · simp at h
  · simp only [Prod.mk.injEq, Option.some.injEq] at h
    obtain ⟨hs2, hid⟩ := h
    subst hs2
    refine ⟨by rw [← hid, hnp], ?_, ?_, ?_, ?_, rfl, rfl⟩
    · simp [hnp]
    · simp [hra]
    · simp only [LState.growthQueue]
      rw [hid, hgq]
    · simp [hct]

theorem addRoad_fields (s : LState) (a b : ℕ) :
    (addRoad s a b).nodePositions = s.nodePositions ∧
    (addRoad s a b).growthQueue = s.growthQueue ∧
    (addRoad s a b).currentTime = s.currentTime ∧
    (addRoad s a b).kdTree = s.kdTree ∧
    (addRoad s a b).kdTreeDirty = s.kdTreeDirty ∧
    (addRoad s a b).roadAges = addRoadList s.roadAges s.currentTime a b :=
  ⟨rfl, rfl, rfl, rfl, rfl, rfl⟩

theorem findValidPosition_fst (cfg : LConfig) (s : LState) (base dir : Point) :
    (findValidPosition cfg s base dir).1 = s ∨
    (findValidPosition cfg s base dir).1 = ensureFresh s :=
  findValidAux_fst cfg base dir cfg.radii s

/-- When no radius yields a valid candidate, the growth attempt leaves
nodes and roads untouched and reports silent abandonment. -/
theorem growAttempt_of_none (cfg : LConfig) (s : LState) (nid : ℕ) (pos dir : Point)
    (h : (findValidPosition cfg s pos dir).2 = none) :
    (growAttempt cfg s nid pos dir).1.nodePositions = s.nodePositions ∧
    (growAttempt cfg s nid pos dir).1.roadAges = s.roadAges ∧
    (growAttempt cfg s nid pos dir).2 = .noCandidate := by
  unfold growAttempt
  cases hfv : findValidPosition cfg s pos dir with
  | mk s1 cand =>
    rw [hfv] at h
    simp only [] at h
    subst h
    have hs1 := findValidPosition_fst cfg s pos dir
    rw [hfv] at hs1
    simp only [] at hs1
    rcases hs1 with rfl | rfl
    · exact ⟨rfl, rfl, rfl⟩
    · exact ⟨(ensureFresh_fields s).1, (ensureFresh_fields s).2.1, rfl⟩

/-- Every state change of a single growth attempt: the node list either
stays or gains exactly one candidate of the radius ladder, the clock is
untouched, and at most one road is inserted. -/
theorem growAttempt_frame (cfg : LConfig) (s : LState) (nid : ℕ) (pos dir : Point) :
    ((growAttempt cfg s nid pos dir).1.nodePositions = s.nodePositions ∨
      ∃ r ∈ cfg.radii, (growAttempt cfg s nid pos dir).1.nodePositions =
        s.nodePositions ++ [cfg.snap (candidate pos dir r)]) ∧
    (growAttempt cfg s nid pos dir).1.currentTime = s.currentTime ∧
    (growAttempt cfg s nid pos dir).1.roadAges.length ≤ s.roadAges.length + 1 := by
  unfold growAttempt
  cases hfv : findValidPosition cfg s pos dir with
  | mk s1 cand =>
    have hs1 : s1 = s ∨ s1 = ensureFresh s := by
      have h := findValidPosition_fst cfg s pos dir
      rw [hfv] at h
      exact h
    have hs1np : s1.nodePositions = s.nodePositions := by
      rcases hs1 with rfl | rfl
      · rfl
      · exact (ensureFresh_fields s).1
    have hs1ra : s1.roadAges = s.roadAges := by
      rcases hs1 with rfl | rfl
      · rfl
      · exact (ensureFresh_fields s).2.1
    have hs1ct : s1.currentTime = s.currentTime := by
      rcases hs1 with rfl | rfl
      · rfl
      · exact (ensureFresh_fields s).2.2.2.1
    have he1np : (ensureFresh s1).nodePositions = s.nodePositions := by
      rw [(ensureFresh_fields s1).1, hs1np]
    have he1ra : (ensureFresh s1).roadAges = s.roadAges := by
      rw [(ensureFresh_fields s1).2.1, hs1ra]
    have he1ct : (ensureFresh s1).currentTime = s.currentTime := by
      rw [(ensureFresh_fields s1).2.2.2.1, hs1ct]
    cases cand with
    | none =>
      simp only []
      exact ⟨Or.inl hs1np, hs1ct, by rw [hs1ra]; omega⟩
    | some newPos =>
      have hmem : ∃ r ∈ cfg.radii, newPos = cfg.snap (candidate pos dir r) := by
        apply findValidAux_some_mem cfg pos dir cfg.radii s newPos
        rw [show findValidAux cfg s pos dir cfg.radii = findValidPosition cfg s pos dir
          from rfl, hfv]
      simp only []
      cases hk : (ensureFresh s1).kdTree with
      | none =>
        simp only []
        exact ⟨Or.inl he1np, he1ct, by rw [he1ra]; omega⟩
      | some tree =>
        simp only []
        cases hn : nearest tree newPos with
        | none =>
          simp only []
          exact ⟨Or.inl he1np, he1ct, by rw [he1ra]; omega⟩
        | some dj =>
          cases dj with
          | mk d2 idx =>
            simp only []
            by_cases hm : d2 < (minDistance * (1 / 2)) ^ 2
            · rw [if_pos hm]
              refine ⟨Or.inl ?_, ?_, ?_⟩
              · rw [(addRoad_fields _ nid idx).1, he1np]
              · rw [(addRoad_fields _ nid idx).2.2.1, he1ct]
              · rw [(addRoad_fields _ nid idx).2.2.2.2.2]
                calc (addRoadList (ensureFresh s1).roadAges
                      (ensureFresh s1).currentTime nid idx).length
                    ≤ (ensureFresh s1).roadAges.length + 1 := addRoadList_length_le _ _ _ _
                  _ = s.roadAges.length + 1 := by rw [he1ra]
            · rw [if_neg hm]
              cases han : addNode cfg (ensureFresh s1) newPos with
              | mk s3 onid =>
                cases onid with
                | none =>
                  simp only []
                  obtain ⟨hs3, _⟩ := addNode_none_spec han
                  subst hs3
                  rw [ensureFresh_idem]
                  exact ⟨Or.inl he1np, he1ct, by rw [he1ra]; omega⟩
                | some newId =>
                  simp only []
                  obtain ⟨_, hnp3, hra3, _, hct3, _, _⟩ := addNode_some_spec han
                  obtain ⟨r, hr, hrp⟩ := hmem
                  refine ⟨Or.inr ⟨r, hr, ?_⟩, ?_, ?_⟩
                  · rw [(addRoad_fields s3 nid newId).1, hnp3, he1np, hrp]
                  · rw [(addRoad_fields s3 nid newId).2.2.1, hct3, he1ct]
                  · rw [(addRoad_fields s3 nid newId).2.2.2.2.2]
                    calc (addRoadList s3.roadAges s3.currentTime nid newId).length
                        ≤ s3.roadAges.length + 1 := addRoadList_length_le _ _ _ _
                      _ = s.roadAges.length + 1 := by rw [hra3, he1ra]

theorem growAttempts_unfold (cfg : LConfig) (s : LState) (nid : ℕ) (pos d : Point)
    (ds : List Point) :
    growAttempts cfg s nid pos (d :: ds) =
      ((growAttempts cfg (growAttempt cfg s nid pos d).1 nid pos ds).1,
       (growAttempt cfg s nid pos d).2 ::
         (growAttempts cfg (growAttempt cfg s nid pos d).1 nid pos ds).2) := rfl

theorem growAttempts_frame (cfg : LConfig) :
    ∀ (ds : List Point) (s : LState) (nid : ℕ) (pos : Point),
      (growAttempts cfg s nid pos ds).1.currentTime = s.currentTime ∧
      (growAttempts cfg s nid pos ds).1.nodePositions.length ≤
        s.nodePositions.length + ds.length ∧
      (growAttempts cfg s nid pos ds).1.roadAges.length ≤
        s.roadAges.length + ds.length := by
  intro ds
  induction ds with
  | nil =>
    intro s nid pos
    exact ⟨rfl, by simp [growAttempts], by simp [growAttempts]⟩
  | cons d ds ih =>
    intro s nid pos
    rw [growAttempts_unfold]
    obtain ⟨hnp, hct, hra⟩ := growAttempt_frame cfg s nid pos d
    obtain ⟨ih1, ih2, ih3⟩ := ih (growAttempt cfg s nid pos d).1 nid pos
    have hlen : (growAttempt cfg s nid pos d).1.nodePositions.length ≤
        s.nodePositions.length + 1 := by
      rcases hnp with h | ⟨r, _, h⟩ <;> rw [h] <;> simp
    refine ⟨?_, ?_, ?_⟩
    · simp only []
      rw [ih1, hct]
    · simp only [List.length_cons]
      omega
    · simp only [List.length_cons]
      omega

theorem growCity_time (cfg : LConfig) (s : LState) (o : StepOracle) :
    (growCity cfg s o).currentTime =
      if s.growthQueue = [] then s.currentTime else s.currentTime + 1 := by
  unfold growCity growCityRun
  cases hq : s.growthQueue with
  | nil =>
    rw [if_pos rfl]
    by_cases hp : s.nodePositions.isEmpty
    · simp [hp]
    · simp [hp]
  | cons nid rest =>
    rw [if_neg (List.cons_ne_nil nid rest)]
    simp only []
    cases hg : s.nodePositions.get? nid with
    | none => simp [hg]
    | some pos =>
      simp only [hg]
      exact (growAttempts_frame cfg o.dirs _ nid pos).1

theorem growCity_counts (cfg : LConfig) (s : LState) (o : StepOracle)
    (hk : o.dirs.length ≤ 3) :
    nodeCount (growCity cfg s o) ≤ nodeCount s + 3 ∧
    roadCount (growCity cfg s o) ≤ roadCount s + 3 := by
  unfold nodeCount roadCount growCity growCityRun
  cases hq : s.growthQueue with
  | nil =>
    by_cases hp : s.nodePositions.isEmpty
    · simp [hp]
    · simp [hp]
  | cons nid rest =>
    simp only []
    cases hg : s.nodePositions.get? nid with
    | none => simp [hg]
    | some pos =>
      simp only [hg]
      obtain ⟨_, h2, h3⟩ := growAttempts_frame cfg o.dirs
        { s with currentTime := s.currentTime + 1, growthQueue := rest } nid pos
      simp only [] at h2 h3
      omega

theorem growCity_recovery (cfg : LConfig) (s : LState) (o : StepOracle)
    (hq : s.growthQueue = []) (hp : s.nodePositions ≠ []) :
    (growCity cfg s o).growthQueue = [o.recoveryChoice] ∧
    (growCity cfg s o).nodePositions = s.nodePositions ∧
    (growCity cfg s o).roadAges = s.roadAges ∧
    (growCity cfg s o).currentTime = s.currentTime := by
  unfold growCity growCityRun
  rw [hq]
  simp only []
  rw [if_neg (by simpa [List.isEmpty_iff] using hp)]
  exact ⟨rfl, rfl, rfl, rfl⟩

/-! The lazy-variant engine invariant and its preservation. -/

theorem initLState_eq (cfg : LConfig) :
    initLState cfg =
      { nodePositions := [(0, 0)], roadAges := [], growthQueue := [0],
        currentTime := 0, kdTree := none, kdTreeDirty := true } := rfl

theorem LInv_init (cfg : LConfig) : LInv cfg (initLState cfg) := by
  rw [initLState_eq]
  exact ⟨by simp, Or.inl rfl, by simp⟩

theorem LInv_ensureFresh {cfg : LConfig} {s : LState} (h : LInv cfg s) :
    LInv cfg (ensureFresh s) := by
  obtain ⟨h1, h2, h3⟩ := h
  obtain ⟨hnp, _, _, _, _⟩ := ensureFresh_fields s
  refine ⟨by rw [hnp]; exact h1, Or.inr ?_, by rw [hnp]; exact h3⟩
  rw [hnp]
  exact ensureFresh_kdTree h1 h2

theorem LInv_addRoad {cfg : LConfig} {s : LState} (h : LInv cfg s) (a b : ℕ) :
    LInv cfg (addRoad s a b) := h

theorem LInv_addNode {cfg : LConfig} {s : LState} (h : LInv cfg s) (p : Point) :
    LInv cfg (addNode cfg s p).1 := by
  cases han : addNode cfg s p with
  | mk s2 r =>
    cases r with
    | none =>
      obtain ⟨hs2, _⟩ := addNode_none_spec han
      subst hs2
      exact LInv_ensureFresh h
    | some id =>
      obtain ⟨hid, hnp, hra, hgq, hct, hdt, hv⟩ := addNode_some_spec han
      obtain ⟨h1, h2, h3⟩ := h
      have hvalid := (validAt_true_iff h1 h2 p).mp hv
      refine ⟨by rw [hnp]; simp, Or.inl hdt, ?_⟩
      rw [hnp, List.pairwise_append]
      refine ⟨h3, by simp, ?_⟩
      intro a ha b hb
      rw [List.mem_singleton] at hb
      subst hb
      rw [distSq_comm]
      exact hvalid a ha

theorem LInv_growAttempt {cfg : LConfig} {s : LState} (h : LInv cfg s)
    (nid : ℕ) (pos dir : Point) : LInv cfg (growAttempt cfg s nid pos dir).1 := by
  unfold growAttempt
  cases hfv : findValidPosition cfg s pos dir with
  | mk s1 cand =>
    have hs1 : LInv cfg s1 := by
      rcases findValidPosition_fst cfg s pos dir with hh | hh <;> rw [hfv] at hh <;>
        simp only [] at hh <;> subst hh
      · exact h
      · exact LInv_ensureFresh h
    cases cand with
    | none => exact hs1
    | some newPos =>
      simp only []
      cases hk : (ensureFresh s1).kdTree with
      | none => exact LInv_ensureFresh hs1
      | some tree =>
        simp only []
        cases hn : nearest tree newPos with
        | none => exact LInv_ensureFresh hs1
        | some dj =>
          cases dj with
          | mk d2 idx =>
            simp only []
            by_cases hm : d2 < (minDistance * (1 / 2)) ^ 2
            · rw [if_pos hm]
              exact LInv_addRoad (LInv_ensureFresh hs1) nid idx
            · rw [if_neg hm]
              cases han : addNode cfg (ensureFresh s1) newPos with
              | mk s3 onid =>
                have hs3 : LInv cfg s3 := by
                  have := LInv_addNode (LInv_ensureFresh hs1) newPos
                  rw [han] at this
                  exact this
                cases onid with
                | none => exact hs3
                | some newId => exact LInv_addRoad hs3 nid newId

theorem LInv_growAttempts {cfg : LConfig} :
    ∀ (ds : List Point) (s : LState) (nid : ℕ) (pos : Point), LInv cfg s →
      LInv cfg (growAttempts cfg s nid pos ds).1 := by
  intro ds
  induction ds with
  | nil => intro s nid pos h; exact h
  | cons d ds ih =>
    intro s nid pos h
    rw [growAttempts_unfold]
    exact ih (growAttempt cfg s nid pos d).1 nid pos (LInv_growAttempt h nid pos d)

theorem LInv_growCity {cfg : LConfig} {s : LState} (h : LInv cfg s) (o : StepOracle) :
    LInv cfg (growCity cfg s o) := by
  unfold growCity growCityRun
  cases hq : s.growthQueue with
  | nil =>
    by_cases hp : s.nodePositions.isEmpty
    · simp only [if_pos hp]
      exact h
    · simp only [if_neg hp]
      exact h
  | cons nid rest =>
    simp only []
    cases hg : s.nodePositions.get? nid with
    | none => simp only [hg]; exact h
    | some pos =>
      simp only [hg]
      exact LInv_growAttempts o.dirs _ nid pos h

theorem LReachable_LInv {cfg : LConfig} {s : LState} (h : LReachable cfg s) :
    LInv cfg s := by
  induction h with
  | init => exact LInv_init cfg
  | step s o _ ih => exact LInv_growCity ih o

/-- Under the engine invariant, and whenever the merge threshold lies
strictly below the validity threshold, a growth attempt can only be
abandoned or create a node: the merge and rejection branches are dead. -/
theorem growAttempt_outcome {cfg : LConfig} {s : LState} (hInv : LInv cfg s)
    (hth : (minDistance * (1 / 2)) ^ 2 < cfg.validThreshSq)
    (nid : ℕ) (pos dir : Point) :
    (growAttempt cfg s nid pos dir).2 = .noCandidate ∨
    ∃ i, (growAttempt cfg s nid pos dir).2 = .created i := by
  unfold growAttempt
  cases hfv : findValidPosition cfg s pos dir with
  | mk s1 cand =>
    cases cand with
    | none => exact Or.inl rfl
    | some newPos =>
      right
      obtain ⟨hv, hfst⟩ := findValidAux_some_valid cfg pos dir cfg.radii s newPos
        (by rw [show findValidAux cfg s pos dir cfg.radii =
          findValidPosition cfg s pos dir from rfl, hfv])
      rw [show findValidAux cfg s pos dir cfg.radii =
        findValidPosition cfg s pos dir from rfl, hfv] at hfst
      simp only [] at hfst
      subst hfst
      obtain ⟨h1, h2, h3⟩ := hInv
      have hk : (ensureFresh s).kdTree = some s.nodePositions :=
        ensureFresh_kdTree h1 h2
      simp only [ensureFresh_idem, hk]
      cases hn : nearest s.nodePositions newPos with
      | none => exact absurd hn (nearest_ne_none h1 newPos)
      | some dj =>
        cases dj with
        | mk d2 idx =>
          simp only []
          have hall := (validAt_true_iff h1 h2 newPos).mp hv
          obtain ⟨q, hq, hdq⟩ := nearest_attained hn
          have hd2 : cfg.validThreshSq ≤ d2 := by
            rw [hdq]
            exact hall q hq
          have hnm : ¬d2 < (minDistance * (1 / 2)) ^ 2 := by
            intro hlt
            linarith
          rw [if_neg hnm]
          have hv2 : validAt cfg (ensureFresh s) newPos = true := by
            rw [validAt_ensureFresh]
            exact hv
          cases han : addNode cfg (ensureFresh s) newPos with
          | mk s3 onid =>
            cases onid with
            | none =>
              obtain ⟨_, hfalse⟩ := addNode_none_spec han
              rw [hv2] at hfalse
              exact absurd hfalse (by simp)
            | some newId => exact ⟨newId, rfl⟩

theorem growAttempts_outcome {cfg : LConfig}
    (hth : (minDistance * (1 / 2)) ^ 2 < cfg.validThreshSq) :
    ∀ (ds : List Point) (s : LState) (nid : ℕ) (pos : Point), LInv cfg s →
      ∀ out ∈ (growAttempts cfg s nid pos ds).2,
        out = .noCandidate ∨ ∃ i, out = .created i := by
  intro ds
  induction ds with
  | nil => intro s nid pos _ out hout; simp [growAttempts] at hout
  | cons d ds ih =>
    intro s nid pos h out hout
    rw [growAttempts_unfold] at hout
    simp only [List.mem_cons] at hout
    rcases hout with rfl | hout
    · exact growAttempt_outcome h hth nid pos d
    · exact ih (growAttempt cfg s nid pos d).1 nid pos
        (LInv_growAttempt h nid pos d) out hout

theorem growCityRun_outcome {cfg : LConfig} {s : LState} (hInv : LInv cfg s)
    (hth : (minDistance * (1 / 2)) ^ 2 < cfg.validThreshSq) (o : StepOracle) :
    ∀ out ∈ (growCityRun cfg s o).2,
      out = .noCandidate ∨ ∃ i, out = .created i := by
  unfold growCityRun
  cases hq : s.growthQueue with
  | nil =>
    by_cases hp : s.nodePositions.isEmpty
    · simp [hp]
    · simp [hp]
  | cons nid rest =>
    simp only []
    cases hg : s.nodePositions.get? nid with
    | none => simp [hg]
    | some pos =>
      simp only [hg]
      exact growAttempts_outcome hth o.dirs _ nid pos hInv

/-! Structural facts about the periodic-rebuild variant. -/

theorem nFindValidAux_eq_find? (s : NState) (base dir : Point) :
    ∀ (rs : List ℚ),
      nFindValidAux s base dir rs =
        (rs.map (candidate base dir)).find? (fun p => nIsValidPosition s p) := by
  intro rs
  induction rs with
  | nil => rfl
  | cons r rs ih =>
    simp only [nFindValidAux, List.map_cons]
    cases hok : nIsValidPosition s (candidate base dir r)
    · rw [List.find?_cons_of_neg _ (by simp [hok]), if_neg (by simp [hok]), ih]
    · rw [List.find?_cons_of_pos _ (by simp [hok]), if_pos (by simp [hok])]

theorem nFindValidAux_some_mem (s : NState) (base dir : Point) :
    ∀ (rs : List ℚ) (p : Point), nFindValidAux s base dir rs = some p →
      (∃ r ∈ rs, p = candidate base dir r) ∧ nIsValidPosition s p = true := by
  intro rs
  induction rs with
  | nil => intro p h; simp [nFindValidAux] at h
  | cons r rs ih =>
    intro p h
    simp only [nFindValidAux] at h
    cases hok : nIsValidPosition s (candidate base dir r) <;> rw [hok] at h
    · simp only [Bool.false_eq_true, if_false] at h
      obtain ⟨⟨r', hr', hp⟩, hv⟩ := ih p h
      exact ⟨⟨r', List.mem_cons_of_mem r hr', hp⟩, hv⟩
    · simp only [if_true, Option.some.injEq] at h
      subst h
      exact ⟨⟨r, List.mem_cons_self r rs, rfl⟩, hok⟩

theorem nAddRoad_fields (s : NState) (a b : ℕ) :
    (nAddRoad s a b).nodePositions = s.nodePositions ∧
    (nAddRoad s a b).positionToNode = s.positionToNode ∧
    (nAddRoad s a b).growthQueue = s.growthQueue ∧
    (nAddRoad s a b).currentTime = s.currentTime ∧
    (nAddRoad s a b).kdTree = s.kdTree ∧
    (nAddRoad s a b).roadAges = addRoadList s.roadAges s.currentTime a b :=
  ⟨rfl, rfl, rfl, rfl, rfl, rfl⟩

theorem nAddNode_some_spec {s s2 : NState} {p : Point} {id : ℕ}
    (h : nAddNode s p = (s2, some id)) :
    id = s.nodePositions.length ∧
    s2.nodePositions = s.nodePositions ++ [p] ∧
    s2.roadAges = s.roadAges ∧
    s2.growthQueue = s.growthQueue ++ [id] ∧
    s2.currentTime = s.currentTime ∧
    s2.positionToNode = (p, id) :: s.positionToNode ∧
    s2.kdTree = (if id % 10 = 0 then some (s.nodePositions ++ [p]) else s.kdTree) ∧
    nIsValidPosition s p = true := by
  unfold nAddNode at h
  cases hv : nIsValidPosition s p <;> rw [hv] at h
  · simp at h
  · simp only [if_true, Prod.mk.injEq, Option.some.injEq] at h
    obtain ⟨hs2, hid⟩ := h
    subst hid
    by_cases hmod : s.nodePositions.length % 10 = 0
    · rw [if_pos hmod] at hs2
      unfold nUpdateSpatialIndex at hs2
      rw [if_neg (by simp)] at hs2
      subst hs2
      refine ⟨rfl, rfl, rfl, rfl, rfl, rfl, ?_, rfl⟩
      rw [if_pos hmod]
    · rw [if_neg hmod] at hs2
      subst hs2
      refine ⟨rfl, rfl, rfl, rfl, rfl, rfl, ?_, rfl⟩
      rw [if_neg hmod]

theorem nAddNode_none_spec {s s2 : NState} {p : Point}
    (h : nAddNode s p = (s2, none)) : s2 = s ∧ nIsValidPosition s p = false := by
  unfold nAddNode at h
  cases hv : nIsValidPosition s p <;> rw [hv] at h
  · simp only [Bool.false_eq_true, if_false, Prod.mk.injEq] at h
    exact ⟨h.1.symm, rfl⟩
  · simp at h

theorem nGrowAttempt_frame (s : NState) (nid : ℕ) (pos dir : Point) :
    ((nGrowAttempt s nid pos dir).1.nodePositions = s.nodePositions ∨
      ∃ r ∈ radii5, (nGrowAttempt s nid pos dir).1.nodePositions =
        s.nodePositions ++ [candidate pos dir r]) ∧
    (nGrowAttempt s nid pos dir).1.currentTime = s.currentTime ∧
    (nGrowAttempt s nid pos dir).1.roadAges.length ≤ s.roadAges.length + 1 := by
  unfold nGrowAttempt
  cases hfv : nFindValidPosition s pos dir with
  | none => exact ⟨Or.inl rfl, rfl, Nat.le_succ _⟩
  | some newPos =>
    simp only []
    cases hex : (s.positionToNode.find? (fun e => e.1 = newPos)).map Prod.snd with
    | some existing =>
      simp only []
      refine ⟨Or.inl (nAddRoad_fields s nid existing).1, (nAddRoad_fields s nid existing).2.2.2.1, ?_⟩
      rw [(nAddRoad_fields s nid existing).2.2.2.2.2]
      exact addRoadList_length_le _ _ _ _
    | none =>
      simp only []
      cases han : nAddNode s newPos with
      | mk s3 onid =>
        cases onid with
        | none =>
          simp only []
          obtain ⟨hs3, _⟩ := nAddNode_none_spec han
          subst hs3
          exact ⟨Or.inl rfl, rfl, Nat.le_succ _⟩
        | some newId =>
          simp only []
          obtain ⟨_, hnp3, hra3, _, hct3, _, _, _⟩ := nAddNode_some_spec han
          obtain ⟨⟨r, hr, hrp⟩, _⟩ := nFindValidAux_some_mem s pos dir radii5 newPos hfv
          refine ⟨Or.inr ⟨r, hr, ?_⟩, ?_, ?_⟩
          · rw [(nAddRoad_fields s3 nid newId).1, hnp3, hrp]
          · rw [(nAddRoad_fields s3 nid newId).2.2.2.1, hct3]
          · rw [(nAddRoad_fields s3 nid newId).2.2.2.2.2]
            calc (addRoadList s3.roadAges s3.currentTime nid newId).length
                ≤ s3.roadAges.length + 1 := addRoadList_length_le _ _ _ _
              _ = s.roadAges.length + 1 := by rw [hra3]

theorem nGrowAttempts_unfold (s : NState) (nid : ℕ) (pos d : Point)
    (ds : List Point) :
    nGrowAttempts s nid pos (d :: ds) =
      ((nGrowAttempts (nGrowAttempt s nid pos d).1 nid pos ds).1,
       (nGrowAttempt s nid pos d).2 ::
         (nGrowAttempts (nGrowAttempt s nid pos d).1 nid pos ds).2) := rfl

theorem nGrowAttempts_frame :
    ∀ (ds : List Point) (s : NState) (nid : ℕ) (pos : Point),
      (nGrowAttempts s nid pos ds).1.currentTime = s.currentTime ∧
      (nGrowAttempts s nid pos ds).1.nodePositions.length ≤
        s.nodePositions.length + ds.length ∧
      (nGrowAttempts s nid pos ds).1.roadAges.length ≤
        s.roadAges.length + ds.length := by
  intro ds
  induction ds with
  | nil =>
    intro s nid pos
    exact ⟨rfl, by simp [nGrowAttempts], by simp [nGrowAttempts]⟩
  | cons d ds ih =>
    intro s nid pos
    rw [nGrowAttempts_unfold]
    obtain ⟨hnp, hct, hra⟩ := nGrowAttempt_frame s nid pos d
    obtain ⟨ih1, ih2, ih3⟩ := ih (nGrowAttempt s nid pos d).1 nid pos
    have hlen : (nGrowAttempt s nid pos d).1.nodePositions.length ≤
        s.nodePositions.length + 1 := by
      rcases hnp with h | ⟨r, _, h⟩ <;> rw [h] <;> simp
    refine ⟨?_, ?_, ?_⟩
    · simp only []
      rw [ih1, hct]
    · simp only [List.length_cons]
      omega
    · simp only [List.length_cons]
      omega

theorem nGrowCity_time (s : NState) (o : StepOracle) :
    (nGrowCity s o).currentTime =
      if s.growthQueue = [] then s.currentTime else s.currentTime + 1 := by
  unfold nGrowCity nGrowCityRun
  cases hq : s.growthQueue with
  | nil =>
    rw [if_pos rfl]
    by_cases hp : s.nodePositions.isEmpty
    · simp [hp]
    · simp [hp]
  | cons nid rest =>
    rw [if_neg (List.cons_ne_nil nid rest)]
    simp only []
    cases hg : s.nodePositions.get? nid with
    | none => simp [hg]
    | some pos =>
      simp only [hg]
      exact (nGrowAttempts_frame o.dirs _ nid pos).1

theorem nGrowCity_counts (s : NState) (o : StepOracle) (hk : o.dirs.length ≤ 3) :
    nNodeCount (nGrowCity s o) ≤ nNodeCount s + 3 ∧
    nRoadCount (nGrowCity s o) ≤ nRoadCount s + 3 := by
  unfold nNodeCount nRoadCount nGrowCity nGrowCityRun
  cases hq : s.growthQueue with
  | nil =>
    by_cases hp : s.nodePositions.isEmpty
    · simp [hp]
    · simp [hp]
  | cons nid rest =>
    simp only []
    cases hg : s.nodePositions.get? nid with
    | none => simp [hg]
    | some pos =>
      simp only [hg]
      obtain ⟨_, h2, h3⟩ := nGrowAttempts_frame o.dirs
        { s with currentTime := s.currentTime + 1, growthQueue := rest } nid pos
      simp only [] at h2 h3
      omega

theorem nGrowCity_recovery (s : NState) (o : StepOracle)
    (hq : s.growthQueue = []) (hp : s.nodePositions ≠ []) :
    (nGrowCity s o).growthQueue = [o.recoveryChoice] ∧
    (nGrowCity s o).nodePositions = s.nodePositions ∧
    (nGrowCity s o).roadAges = s.roadAges ∧
    (nGrowCity s o).currentTime = s.currentTime := by
  unfold nGrowCity nGrowCityRun
  rw [hq]
  simp only []
  rw [if_neg (by simpa [List.isEmpty_iff] using hp)]
  exact ⟨rfl, rfl, rfl, rfl⟩

/-! Algebra of the road dictionary. -/

theorem addRoadList_self (roads : List ((ℕ × ℕ) × ℕ)) (t a : ℕ) :
    addRoadList roads t a a = roads := by
  unfold addRoadList
  simp

theorem addRoadList_mem_key (roads : List ((ℕ × ℕ) × ℕ)) (t : ℕ) {a b : ℕ}
    (hab : a ≠ b) :
    (min a b, max a b) ∈ (addRoadList roads t a b).map Prod.fst := by
  unfold addRoadList
  rw [if_neg hab]
  by_cases hmem : (min a b, max a b) ∈ roads.map Prod.fst
  · rw [if_pos hmem]
    exact hmem
  · rw [if_neg hmem]
    simp

theorem addRoadList_of_mem (roads : List ((ℕ × ℕ) × ℕ)) (t : ℕ) (a b : ℕ)
    (h : (min a b, max a b) ∈ roads.map Prod.fst) :
    addRoadList roads t a b = roads := by
  unfold addRoadList
  by_cases hab : a = b
  · rw [if_pos hab]
  · rw [if_neg hab, if_pos h]

theorem addRoadList_wf (roads : List ((ℕ × ℕ) × ℕ)) (t a b : ℕ)
    (h : RoadsWF roads) : RoadsWF (addRoadList roads t a b) := by
  unfold addRoadList
  by_cases hab : a = b
  · rw [if_pos hab]
    exact h
  · rw [if_neg hab]
    by_cases hmem : (min a b, max a b) ∈ roads.map Prod.fst
    · rw [if_pos hmem]
      exact h
    · rw [if_neg hmem]
      obtain ⟨h1, h2⟩ := h
      constructor
      · rw [List.map_append]
        simp only [List.map_cons, List.map_nil]
        rw [List.nodup_append]
        refine ⟨h1, List.nodup_singleton _, ?_⟩
        intro k hk
        simp only [List.mem_singleton]
        intro hkeq
        subst hkeq
        exact hmem hk
      · intro k hk
        rw [List.map_append] at hk
        rcases List.mem_append.mp hk with hk | hk
        · exact h2 k hk
        · simp only [List.map_cons, List.map_nil, List.mem_singleton] at hk
          subst hk
          exact min_lt_max.mpr hab

theorem addRoadList_idem (roads : List ((ℕ × ℕ) × ℕ)) (t t' a b : ℕ) :
    addRoadList (addRoadList roads t a b) t' a b = addRoadList roads t a b ∧
    addRoadList (addRoadList roads t a b) t' b a = addRoadList roads t a b := by
  by_cases hab : a = b
  · subst hab
    simp [addRoadList_self]
  · have hmem := addRoadList_mem_key roads t hab
    constructor
    · exact addRoadList_of_mem _ t' a b hmem
    · apply addRoadList_of_mem
      rw [min_comm b a, max_comm b a]
      exact hmem

theorem growCity_time_le (cfg : LConfig) (s : LState) (o : StepOracle) :
    s.currentTime ≤ (growCity cfg s o).currentTime := by
  rw [growCity_time]
  split <;> omega

theorem nGrowCity_time_le (s : NState) (o : StepOracle) :
    s.currentTime ≤ (nGrowCity s o).currentTime := by
  rw [nGrowCity_time]
  split <;> omega

theorem foldl_growCity_time_mono (cfg : LConfig) :
    ∀ (os : List StepOracle) (s : LState),
      s.currentTime ≤ (os.foldl (growCity cfg) s).currentTime := by
  intro os
  induction os with
  | nil => intro s; exact le_refl _
  | cons o os ih =>
    intro s
    exact le_trans (growCity_time_le cfg s o) (by simpa using ih (growCity cfg s o))

theorem foldl_nGrowCity_time_mono :
    ∀ (os : List StepOracle) (s : NState),
      s.currentTime ≤ (os.foldl nGrowCity s).currentTime := by
  intro os
  induction os with
  | nil => intro s; exact le_refl _
  | cons o os ih =>
    intro s
    exact le_trans (nGrowCity_time_le s o) (by simpa using ih (nGrowCity s o))

/-! Claim theorems. -/

/-- Claim C5: across every sequence of `step()` (`grow_city`) calls,
`current_time()` is non-decreasing; it increases by exactly 1 on each call
that dequeues a frontier node (nonempty queue) and by exactly 0 on each
call made with an empty frontier (recovery-only step).  Stated for the
lazy-rebuild engine (`enhanceCfg`) and the periodic-rebuild engine. -/
theorem claim_C5_monotonic_clock :
    (∀ (s : LState) (o : StepOracle),
      (growCity enhanceCfg s o).currentTime =
        if s.growthQueue = [] then s.currentTime else s.currentTime + 1) ∧
    (∀ (s : NState) (o : StepOracle),
      (nGrowCity s o).currentTime =
        if s.growthQueue = [] then s.currentTime else s.currentTime + 1) ∧
    (∀ (os : List StepOracle) (s : LState),
      s.currentTime ≤ (os.foldl (growCity enhanceCfg) s).currentTime) ∧
    (∀ (os : List StepOracle) (s : NState),
      s.currentTime ≤ (os.foldl nGrowCity s).currentTime) :=
  ⟨growCity_time enhanceCfg, nGrowCity_time,
   fun os s => foldl_growCity_time_mono enhanceCfg os s,
   fun os s => foldl_nGrowCity_time_mono os s⟩

/-- Claim C4: calling `step()` (`grow_city`) with an empty growth frontier
on a graph with at least one node leaves the frontier non-empty and changes
neither `node_count()`, `road_count()` nor `current_time()`.  Stated for
both the lazy-rebuild and the periodic-rebuild engines. -/
theorem claim_C4_frontier_recovery :
    (∀ (s : LState) (o : StepOracle), s.growthQueue = [] → s.nodePositions ≠ [] →
      (growCity enhanceCfg s o).growthQueue ≠ [] ∧
      nodeCount (growCity enhanceCfg s o) = nodeCount s ∧
      roadCount (growCity enhanceCfg s o) = roadCount s ∧
      (growCity enhanceCfg s o).currentTime = s.currentTime) ∧
    (∀ (s : NState) (o : StepOracle), s.growthQueue = [] → s.nodePositions ≠ [] →
      (nGrowCity s o).growthQueue ≠ [] ∧
      nNodeCount (nGrowCity s o) = nNodeCount s ∧
      nRoadCount (nGrowCity s o) = nRoadCount s ∧
      (nGrowCity s o).currentTime = s.currentTime) := by
  constructor
  · intro s o hq hp
    obtain ⟨h1, h2, h3, h4⟩ := growCity_recovery enhanceCfg s o hq hp
    refine ⟨by rw [h1]; simp, ?_, ?_, h4⟩
    · unfold nodeCount
      rw [h2]
    · unfold roadCount
      rw [h3]
  · intro s o hq hp
    obtain ⟨h1, h2, h3, h4⟩ := nGrowCity_recovery s o hq hp
    refine ⟨by rw [h1]; simp, ?_, ?_, h4⟩
    · unfold nNodeCount
      rw [h2]
    · unfold nRoadCount
      rw [h3]

theorem claim_C4_frontier_recovery_witness :
    (growCity enhanceCfg { initLState enhanceCfg with growthQueue := [] }
        ⟨0, []⟩).growthQueue ≠ [] ∧
    nodeCount (growCity enhanceCfg { initLState enhanceCfg with growthQueue := [] }
        ⟨0, []⟩) =
      nodeCount { initLState enhanceCfg with growthQueue := [] } :=
  ⟨(claim_C4_frontier_recovery.1 _ ⟨0, []⟩ rfl (by simp [initLState_eq])).1,
   (claim_C4_frontier_recovery.1 _ ⟨0, []⟩ rfl (by simp [initLState_eq])).2.1⟩

/-- Claim C8: a single `step()` (`grow_city`) call performs at most three
growth attempts and hence adds at most 3 nodes and at most 3 roads, for
both the lazy-rebuild and the periodic-rebuild engines.  The attempt count
drawn by the source is in `{1, 2, 3}`, which the hypothesis reflects. -/
theorem claim_C8_step_growth_bound :
    (∀ (s : LState) (o : StepOracle), o.dirs.length ≤ 3 →
      nodeCount (growCity enhanceCfg s o) ≤ nodeCount s + 3 ∧
      roadCount (growCity enhanceCfg s o) ≤ roadCount s + 3) ∧
    (∀ (s : NState) (o : StepOracle), o.dirs.length ≤ 3 →
      nNodeCount (nGrowCity s o) ≤ nNodeCount s + 3 ∧
      nRoadCount (nGrowCity s o) ≤ nRoadCount s + 3) :=
  ⟨fun s o hk => growCity_counts enhanceCfg s o hk,
   fun s o hk => nGrowCity_counts s o hk⟩

theorem claim_C8_step_growth_bound_witness :
    nodeCount (growCity enhanceCfg (initLState enhanceCfg) ⟨0, [(1, 0)]⟩) ≤
      nodeCount (initLState enhanceCfg) + 3 :=
  (claim_C8_step_growth_bound.1 (initLState enhanceCfg) ⟨0, [(1, 0)]⟩ (by simp)).1

/-- Claim C6: `_add_road` is a no-op on self-loops; roads are stored under
the canonical unordered key `(min a b, max a b)`, so well-formedness (no
two entries with the same unordered endpoint pair, keys strictly ordered)
is preserved; and calling `_add_road` again with the same pair, in either
order and at any later clock value, leaves the road dictionary — and hence
the original creation timestamp — unchanged.  Stated for both engines. -/
theorem claim_C6_road_canonicalisation :
    (∀ (s : LState) (a : ℕ), addRoad s a a = s) ∧
    (∀ (s : NState) (a : ℕ), nAddRoad s a a = s) ∧
    (∀ (s : LState) (a b : ℕ), RoadsWF s.roadAges → RoadsWF (addRoad s a b).roadAges) ∧
    (∀ (s : NState) (a b : ℕ), RoadsWF s.roadAges → RoadsWF (nAddRoad s a b).roadAges) ∧
    (∀ (s : LState) (a b t : ℕ),
      addRoad { addRoad s a b with currentTime := t } a b =
        { addRoad s a b with currentTime := t } ∧
      addRoad { addRoad s a b with currentTime := t } b a =
        { addRoad s a b with currentTime := t }) ∧
    (∀ (s : NState) (a b t : ℕ),
      nAddRoad { nAddRoad s a b with currentTime := t } a b =
        { nAddRoad s a b with currentTime := t } ∧
      nAddRoad { nAddRoad s a b with currentTime := t } b a =
        { nAddRoad s a b with currentTime := t }) := by
  refine ⟨?_, ?_, ?_, ?_, ?_, ?_⟩
  · intro s a
    unfold addRoad
    rw [addRoadList_self]
  · intro s a
    unfold nAddRoad
    rw [addRoadList_self]
  · intro s a b h
    exact addRoadList_wf _ _ _ _ h
  · intro s a b h
    exact addRoadList_wf _ _ _ _ h
  · intro s a b t
    have h := addRoadList_idem s.roadAges s.currentTime t a b
    constructor
    · unfold addRoad
      simp only []
      rw [h.1]
    · unfold addRoad
      simp only []
      rw [h.2]
  · intro s a b t
    have h := addRoadList_idem s.roadAges s.currentTime t a b
    constructor
    · unfold nAddRoad
      simp only []
      rw [h.1]
    · unfold nAddRoad
      simp only []
      rw [h.2]

theorem claim_C6_road_canonicalisation_witness :
    RoadsWF (addRoad (initLState enhanceCfg) 0 1).roadAges :=
  claim_C6_road_canonicalisation.2.2.1 (initLState enhanceCfg) 0 1
    (by rw [initLState_eq]; exact ⟨List.nodup_nil, by simp⟩)

/-- Claim C2 (amended): for every successful `_add_node` call the node gets
the next sequential id, its position is appended to the store, the spatial
index is marked stale in the dirty-flag variants (the periodic variant
instead rebuilds immediately on every 10th id), and — contrary to the
claim — `_add_node` itself pushes the new id onto the growth frontier; the
caller never does. -/
theorem claim_C2_add_node_effects :
    (∀ (cfg : LConfig) (s s2 : LState) (p : Point) (id : ℕ),
      addNode cfg s p = (s2, some id) →
      id = s.nodePositions.length ∧
      s2.nodePositions = s.nodePositions ++ [p] ∧
      s2.kdTreeDirty = true ∧
      s2.growthQueue = s.growthQueue ++ [id]) ∧
    (∀ (s s2 : NState) (p : Point) (id : ℕ),
      nAddNode s p = (s2, some id) →
      id = s.nodePositions.length ∧
      s2.nodePositions = s.nodePositions ++ [p] ∧
      s2.growthQueue = s.growthQueue ++ [id] ∧
      s2.kdTree = (if id % 10 = 0 then some (s.nodePositions ++ [p]) else s.kdTree)) := by
  constructor
  · intro cfg s s2 p id h
    obtain ⟨h1, h2, _, h4, _, h6, _⟩ := addNode_some_spec h
    exact ⟨h1, h2, h6, h4⟩
  · intro s s2 p id h
    obtain ⟨h1, h2, _, h4, _, _, h7, _⟩ := nAddNode_some_spec h
    exact ⟨h1, h2, h4, h7⟩

section
attribute [local semireducible] Rat.mul Rat.add Rat.sub Rat.inv Rat.ofScientific

/-- Claim C2 counterexample: on the freshly initialised lazy engine a
successful `_add_node` call does change the growth frontier — the new id 1
is pushed by `_add_node` itself, so the frontier is not left unchanged as
the claim asserts. -/
theorem claim_C2_counterexample :
    (addNode enhanceCfg (initLState enhanceCfg) (2 * minDistance, 0)).2 = some 1 ∧
    (initLState enhanceCfg).growthQueue = [0] ∧
    (addNode enhanceCfg (initLState enhanceCfg) (2 * minDistance, 0)).1.growthQueue =
      [0, 1] := by
  decide

theorem claim_C2_add_node_effects_witness :
    (addNode enhanceCfg (initLState enhanceCfg) (2 * minDistance, 0)).1.growthQueue =
      (initLState enhanceCfg).growthQueue ++ [1] :=
  (claim_C2_add_node_effects.1 enhanceCfg (initLState enhanceCfg)
    (addNode enhanceCfg (initLState enhanceCfg) (2 * minDistance, 0)).1
    (2 * minDistance, 0) 1 (by decide)).2.2.2

end

/-- Claim C7: the candidate search of `_find_valid_position` uses radii
evenly spaced between `min_distance` and `2 * min_distance` (5 samples in
the unsnapped engines, 3 in the snapped one), tests the candidates — the
at-radius positions, grid-snapped in the snapped engine — in
increasing-radius order against the spacing check, and returns the first
passing candidate; if no radius passes, the enclosing growth attempt adds
no node and no road and raises no error.  Stated for all three cited
implementations. -/
theorem claim_C7_first_fit_radius :
    radii5 = [minDistance, minDistance + minDistance / 4,
      minDistance + 2 * (minDistance / 4), minDistance + 3 * (minDistance / 4),
      minDistance + 4 * (minDistance / 4)] ∧
    radii3 = [minDistance, minDistance + minDistance / 2,
      minDistance + 2 * (minDistance / 2)] ∧
    (∀ (s : LState) (base dir : Point),
      findValidPosition enhanceCfg s base dir =
        (ensureFresh s,
         (radii5.map (candidate base dir)).find? (fun p => validAt enhanceCfg s p))) ∧
    (∀ (s : LState) (base dir : Point),
      findValidPosition suburbsCfg s base dir =
        (ensureFresh s,
         (radii3.map (fun r => snapToGrid (candidate base dir r))).find?
           (fun p => validAt suburbsCfg s p))) ∧
    (∀ (s : NState) (base dir : Point),
      nFindValidPosition s base dir =
        (radii5.map (candidate base dir)).find? (fun p => nIsValidPosition s p)) ∧
    (∀ (s : LState) (nid : ℕ) (pos dir : Point),
      (findValidPosition enhanceCfg s pos dir).2 = none →
      (growAttempt enhanceCfg s nid pos dir).1.nodePositions = s.nodePositions ∧
      (growAttempt enhanceCfg s nid pos dir).1.roadAges = s.roadAges ∧
      (growAttempt enhanceCfg s nid pos dir).2 = .noCandidate) ∧
    (∀ (s : LState) (nid : ℕ) (pos dir : Point),
      (findValidPosition suburbsCfg s pos dir).2 = none →
      (growAttempt suburbsCfg s nid pos dir).1.nodePositions = s.nodePositions ∧
      (growAttempt suburbsCfg s nid pos dir).1.roadAges = s.roadAges ∧
      (growAttempt suburbsCfg s nid pos dir).2 = .noCandidate) ∧
    (∀ (s : NState) (nid : ℕ) (pos dir : Point),
      nFindValidPosition s pos dir = none →
      nGrowAttempt s nid pos dir = (s, .noCandidate)) := by
  refine ⟨?_, ?_, ?_, ?_, ?_, ?_, ?_, ?_⟩
  · unfold radii5 minDistance
    norm_num
  · unfold radii3 minDistance
    norm_num
  · intro s base dir
    rw [show findValidPosition enhanceCfg s base dir =
      findValidAux enhanceCfg s base dir enhanceCfg.radii from rfl,
      findValidAux_eq_find? enhanceCfg base dir enhanceCfg.radii s
        (by simp [enhanceCfg, radii5])]
    rfl
  · intro s base dir
    rw [show findValidPosition suburbsCfg s base dir =
      findValidAux suburbsCfg s base dir suburbsCfg.radii from rfl,
      findValidAux_eq_find? suburbsCfg base dir suburbsCfg.radii s
        (by simp [suburbsCfg, radii3])]
    rfl
  · intro s base dir
    exact nFindValidAux_eq_find? s base dir radii5
  · intro s nid pos dir h
    exact growAttempt_of_none enhanceCfg s nid pos dir h
  · intro s nid pos dir h
    exact growAttempt_of_none suburbsCfg s nid pos dir h
  · intro s nid pos dir h
    unfold nGrowAttempt
    rw [h]

section
attribute [local semireducible] Rat.mul Rat.add Rat.sub Rat.inv Rat.ofScientific

theorem claim_C7_first_fit_radius_witness :
    (growAttempt enhanceCfg blockedLState 0 (0, 0) (1, 0)).1.nodePositions =
      blockedLState.nodePositions ∧
    (growAttempt suburbsCfg blockedSState 0 (0, 0) (1, 0)).1.nodePositions =
      blockedSState.nodePositions :=
  ⟨(claim_C7_first_fit_radius.2.2.2.2.2.1 blockedLState 0 (0, 0) (1, 0)
      (by decide)).1,
   (claim_C7_first_fit_radius.2.2.2.2.2.2.1 blockedSState 0 (0, 0) (1, 0)
      (by decide)).1⟩

end

/-- Claim C1 (amended): in both lazy-rebuild engines every pair of distinct
nodes of every reachable state is at squared Euclidean distance at least
the square of the variant's reject threshold (`min_distance` in the
enhance engine, `0.9 * min_distance` in the snapped engine) — that is, at
Euclidean distance at least that threshold.  The periodic-rebuild engine
violates exactly this property (`claim_C1_counterexample`): its spacing
check can consult an index missing up to 9 recently inserted nodes. -/
theorem claim_C1_spacing_invariant :
    (∀ s : LState, LReachable enhanceCfg s →
      s.nodePositions.Pairwise (fun p q => minDistance ^ 2 ≤ distSq p q)) ∧
    (∀ s : LState, LReachable suburbsCfg s →
      s.nodePositions.Pairwise (fun p q => (9 / 10 * minDistance) ^ 2 ≤ distSq p q)) :=
  ⟨fun _ h => (LReachable_LInv h).2.2, fun _ h => (LReachable_LInv h).2.2⟩

theorem claim_C1_spacing_invariant_witness :
    (growCity enhanceCfg (initLState enhanceCfg) nCexO1).nodePositions.Pairwise
      (fun p q => minDistance ^ 2 ≤ distSq p q) :=
  claim_C1_spacing_invariant.1 (growCity enhanceCfg (initLState enhanceCfg) nCexO1)
    (LReachable.step (initLState enhanceCfg) nCexO1 LReachable.init)

section
attribute [local semireducible] Rat.mul Rat.add Rat.sub Rat.inv Rat.ofScientific

/-- Claim C1 counterexample: in the periodic-rebuild engine of
`normal_city_unplanned.py`, three `grow_city` steps with realisable draws
(all sampled directions are unit vectors) reach a state whose nodes 1 and 3
are at squared distance `(2/5) * min_distance ^ 2 < min_distance ^ 2`:
the pairwise-spacing property fails on a reachable state, because the
KD-tree is rebuilt only on every 10th insertion and steps 2 and 3
validated against an index containing only the origin. -/
theorem claim_C1_counterexample :
    NReachable nCexState ∧
    unitDir (1, 0) ∧ unitDir (0, 1) ∧ unitDir (3 / 5, -4 / 5) ∧
    nCexState.nodePositions =
      [(0, 0), (minDistance, 0), (minDistance, minDistance),
       (8 / 5 * minDistance, 1 / 5 * minDistance)] ∧
    ¬ nCexState.nodePositions.Pairwise (fun p q => minDistance ^ 2 ≤ distSq p q) ∧
    distSq (minDistance, 0) (8 / 5 * minDistance, 1 / 5 * minDistance) <
      minDistance ^ 2 := by
  refine ⟨NReachable.step _ nCexO3 (NReachable.step _ nCexO2
    (NReachable.step _ nCexO1 NReachable.init)),
    by unfold unitDir; decide, by unfold unitDir; decide, by unfold unitDir; decide,
    by decide, by decide, by decide⟩

/-- Claim C3 counterexample: in the periodic-rebuild engine, after two
reachable steps the KD-tree still indexes only the origin while nodes 1 and
2 have already been inserted; the spacing query for the very candidate that
step 3 will test answers `true` even though inserted node 1 lies closer
than `min_distance` — a nearest-neighbour query is answered by an index
missing nodes already inserted at query time. -/
theorem claim_C3_counterexample :
    NReachable nStaleState ∧
    nStaleState.kdTree = some [(0, 0)] ∧
    (minDistance, 0) ∈ nStaleState.nodePositions ∧
    nIsValidPosition nStaleState (8 / 5 * minDistance, 1 / 5 * minDistance) = true ∧
    distSq (8 / 5 * minDistance, 1 / 5 * minDistance) (minDistance, 0) <
      minDistance ^ 2 := by
  refine ⟨NReachable.step _ nCexO2 (NReachable.step _ nCexO1 NReachable.init),
    ?_, ?_, ?_, ?_⟩ <;> decide

end

/-- Claim C3 (amended): in both lazy-rebuild engines every query path runs
the rebuild-if-dirty prelude, so on every reachable state the index behind
a query covers exactly the current node list and the validity verdict
equals the spacing test against all inserted nodes (with the variant's own
threshold).  The periodic-rebuild engine does not have this property
(`claim_C3_counterexample`). -/
theorem claim_C3_fresh_queries :
    (∀ s : LState, LReachable enhanceCfg s →
      (ensureFresh s).kdTree = some s.nodePositions ∧
      ∀ p : Point, validAt enhanceCfg s p =
        s.nodePositions.all (fun q => decide (minDistance ^ 2 ≤ distSq p q))) ∧
    (∀ s : LState, LReachable suburbsCfg s →
      (ensureFresh s).kdTree = some s.nodePositions ∧
      ∀ p : Point, validAt suburbsCfg s p =
        s.nodePositions.all (fun q =>
          decide ((9 / 10 * minDistance) ^ 2 ≤ distSq p q))) := by
  constructor <;> intro s h <;> obtain ⟨h1, h2, _⟩ := LReachable_LInv h <;>
    exact ⟨ensureFresh_kdTree h1 h2, fun p => validAt_eq_all h1 h2 p⟩

theorem claim_C3_fresh_queries_witness :
    (ensureFresh (initLState enhanceCfg)).kdTree =
      some (initLState enhanceCfg).nodePositions :=
  (claim_C3_fresh_queries.1 (initLState enhanceCfg) LReachable.init).1

/-- Claim C10: in the lazy-rebuild variants (validity thresholds
`min_distance` and `0.9 * min_distance`, both strictly above the merge
threshold `0.5 * min_distance`), the merge branch of `grow_city` is
unreachable from the initial state, and a found candidate is never
rejected by `_add_node` either: every attempt is either abandoned for want
of a valid radius or creates a new node with a road to it. -/
theorem claim_C10_merge_unreachable :
    (∀ (s : LState) (o : StepOracle), LReachable enhanceCfg s → ∀ i : ℕ,
      AttemptOutcome.merged i ∉ (growCityRun enhanceCfg s o).2 ∧
      AttemptOutcome.rejected ∉ (growCityRun enhanceCfg s o).2) ∧
    (∀ (s : LState) (o : StepOracle), LReachable suburbsCfg s → ∀ i : ℕ,
      AttemptOutcome.merged i ∉ (growCityRun suburbsCfg s o).2 ∧
      AttemptOutcome.rejected ∉ (growCityRun suburbsCfg s o).2) := by
  have hgen : ∀ (cfg : LConfig), (minDistance * (1 / 2)) ^ 2 < cfg.validThreshSq →
      ∀ (s : LState) (o : StepOracle), LReachable cfg s → ∀ i : ℕ,
        AttemptOutcome.merged i ∉ (growCityRun cfg s o).2 ∧
        AttemptOutcome.rejected ∉ (growCityRun cfg s o).2 := by
    intro cfg hth s o hr i
    have hout := growCityRun_outcome (LReachable_LInv hr) hth o
    constructor
    · intro hmem
      rcases hout _ hmem with h | ⟨j, h⟩ <;> simp at h
    · intro hmem
      rcases hout _ hmem with h | ⟨j, h⟩ <;> simp at h
  exact ⟨hgen enhanceCfg (by norm_num [enhanceCfg, minDistance]),
         hgen suburbsCfg (by norm_num [suburbsCfg, minDistance])⟩

theorem claim_C10_merge_unreachable_witness :
    AttemptOutcome.merged 0 ∉
      (growCityRun enhanceCfg (initLState enhanceCfg) ⟨0, [(1, 0)]⟩).2 :=
  (claim_C10_merge_unreachable.1 (initLState enhanceCfg) ⟨0, [(1, 0)]⟩
    LReachable.init 0).1

/-! Metric facts for the growth-bound claim. -/

theorem dist_toC (p q : Point) :
    dist (toC p) (toC q) = Real.sqrt ((distSq p q : ℚ) : ℝ) := by
  rw [Complex.dist_eq, Complex.abs_apply, Complex.normSq_apply]
  congr 1
  simp only [toC, Complex.sub_re, Complex.sub_im, distSq]
  push_cast
  ring

theorem dist_toC_candidate (pos dir : Point) (r : ℚ) (hd : unitDir dir)
    (hr : 0 ≤ r) :
    dist (toC (candidate pos dir r)) (toC pos) = (r : ℝ) := by
  rw [dist_toC]
  have hds : distSq (candidate pos dir r) pos = r ^ 2 := by
    unfold unitDir at hd
    unfold distSq candidate
    have hexp : (pos.1 + r * dir.1 - pos.1) ^ 2 + (pos.2 + r * dir.2 - pos.2) ^ 2 =
        r ^ 2 * (dir.1 ^ 2 + dir.2 ^ 2) := by ring
    rw [hexp, hd, mul_one]
  rw [hds]
  push_cast
  exact Real.sqrt_sq (by exact_mod_cast hr)

theorem radii5_bounds (r : ℚ) (hr : r ∈ radii5) : 0 ≤ r ∧ r ≤ 2 * minDistance := by
  simp only [radii5, List.mem_cons, List.mem_singleton, List.not_mem_nil,
    or_false] at hr
  rcases hr with rfl | rfl | rfl | rfl | rfl <;> constructor <;>
    norm_num [minDistance]

theorem growAttempt_dist_bound (s : LState) (nid : ℕ) (pos dir : Point)
    (c : ℂ) (B : ℝ) (hd : unitDir dir)
    (hall : ∀ p ∈ s.nodePositions, dist (toC p) c ≤ B + 2 * (minDistance : ℝ))
    (hpos : dist (toC pos) c ≤ B) :
    ∀ p ∈ (growAttempt enhanceCfg s nid pos dir).1.nodePositions,
      dist (toC p) c ≤ B + 2 * (minDistance : ℝ) := by
  obtain ⟨hnp, _, _⟩ := growAttempt_frame enhanceCfg s nid pos dir
  rcases hnp with h | ⟨r, hr, h⟩
  · rw [h]
    exact hall
  · rw [h]
    intro p hp
    rcases List.mem_append.mp hp with hp | hp
    · exact hall p hp
    · rw [List.mem_singleton] at hp
      subst hp
      obtain ⟨hr0, hr2⟩ := radii5_bounds r hr
      calc dist (toC (enhanceCfg.snap (candidate pos dir r))) c
          ≤ dist (toC (enhanceCfg.snap (candidate pos dir r))) (toC pos) +
              dist (toC pos) c := dist_triangle _ _ _
        _ = (r : ℝ) + dist (toC pos) c := by
            rw [show enhanceCfg.snap (candidate pos dir r) = candidate pos dir r
              from rfl, dist_toC_candidate pos dir r hd hr0]
        _ ≤ B + 2 * (minDistance : ℝ) := by
            have hcast : (r : ℝ) ≤ 2 * (minDistance : ℝ) := by exact_mod_cast hr2
            linarith

theorem growAttempts_dist_bound :
    ∀ (ds : List Point) (s : LState) (nid : ℕ) (pos : Point) (c : ℂ) (B : ℝ),
      (∀ d ∈ ds, unitDir d) →
      (∀ p ∈ s.nodePositions, dist (toC p) c ≤ B + 2 * (minDistance : ℝ)) →
      dist (toC pos) c ≤ B →
      ∀ p ∈ (growAttempts enhanceCfg s nid pos ds).1.nodePositions,
        dist (toC p) c ≤ B + 2 * (minDistance : ℝ) := by
  intro ds
  induction ds with
  | nil => intro s nid pos c B _ hall _; exact hall
  | cons d ds ih =>
    intro s nid pos c B hd hall hpos
    rw [growAttempts_unfold]
    exact ih (growAttempt enhanceCfg s nid pos d).1 nid pos c B
      (fun d' hd' => hd d' (List.mem_cons_of_mem d hd'))
      (growAttempt_dist_bound s nid pos d c B (hd d (List.mem_cons_self d ds)) hall hpos)
      hpos

theorem minDistance_cast_nonneg : (0 : ℝ) ≤ (minDistance : ℝ) := by
  norm_num [minDistance]

theorem growCity_dist_bound (s : LState) (o : StepOracle) (c : ℂ) (B : ℝ)
    (hd : ∀ d ∈ o.dirs, unitDir d)
    (hall : ∀ p ∈ s.nodePositions, dist (toC p) c ≤ B) :
    ∀ p ∈ (growCity enhanceCfg s o).nodePositions,
      dist (toC p) c ≤ B + 2 * (minDistance : ℝ) := by
  have hall' : ∀ p ∈ s.nodePositions, dist (toC p) c ≤ B + 2 * (minDistance : ℝ) := by
    intro p hp
    have := minDistance_cast_nonneg
    have := hall p hp
    linarith
  unfold growCity growCityRun
  cases hq : s.growthQueue with
  | nil =>
    by_cases hp : s.nodePositions.isEmpty
    · simp only [if_pos hp]
      exact hall'
    · simp only [if_neg hp]
      exact hall'
  | cons nid rest =>
    simp only []
    cases hg : s.nodePositions.get? nid with
    | none =>
      simp only [hg]
      exact hall'
    | some pos =>
      simp only [hg]
      have hposmem : pos ∈ s.nodePositions := List.get?_mem hg
      exact growAttempts_dist_bound o.dirs _ nid pos c B hd hall' (hall pos hposmem)

theorem foldl_growCity_dist_bound :
    ∀ (os : List StepOracle) (s : LState) (c : ℂ) (B : ℝ),
      (∀ o ∈ os, ∀ d ∈ o.dirs, unitDir d) →
      (∀ p ∈ s.nodePositions, dist (toC p) c ≤ B) →
      ∀ p ∈ (os.foldl (growCity enhanceCfg) s).nodePositions,
        dist (toC p) c ≤ B + 2 * (minDistance : ℝ) * os.length := by
  intro os
  induction os with
  | nil =>
    intro s c B _ hall p hp
    have := hall p hp
    simp only [List.length_nil, Nat.cast_zero, mul_zero]
    linarith
  | cons o os ih =>
    intro s c B hd hall p hp
    simp only [List.foldl_cons] at hp
    have hstep := growCity_dist_bound s o c B
      (hd o (List.mem_cons_self o os)) hall
    have := ih (growCity enhanceCfg s o) c (B + 2 * (minDistance : ℝ))
      (fun o' ho' => hd o' (List.mem_cons_of_mem o ho')) hstep p hp
    simp only [List.length_cons]
    push_cast
    linarith

/-- Supporting theorem: in the engine without grid snapping, starting from
the freshly initialised origin-only state, after exactly 200 `grow_city`
calls every node lies within Euclidean distance `200 * 2 * min_distance`
of the origin, for every outcome of the random draws (any recovery
choices, any number of attempts per step, any unit directions — both
direction-sampling strategies produce unit vectors).  Stated via the
squared distance: `dist ≤ c` and `distSq ≤ c ^ 2` are equivalent for
`c ≥ 0`.  The grid-snapped engine is not covered: see
`suburbs_snapped_hop` for why the per-hop `2 * min_distance` bound fails
there. -/
theorem growth_bound_unsnapped (os : List StepOracle)
    (hlen : os.length = 200)
    (hdirs : ∀ o ∈ os, ∀ d ∈ o.dirs, unitDir d) :
    ∀ p ∈ (os.foldl (growCity enhanceCfg) (initLState enhanceCfg)).nodePositions,
      distSq (0, 0) p ≤ (200 * (2 * minDistance)) ^ 2 := by
  intro p hp
  have h0 : ∀ q ∈ (initLState enhanceCfg).nodePositions,
      dist (toC q) (toC (0, 0)) ≤ (0 : ℝ) := by
    rw [initLState_eq]
    intro q hq
    rw [List.mem_singleton] at hq
    subst hq
    simp
  have hb := foldl_growCity_dist_bound os (initLState enhanceCfg) (toC (0, 0)) 0
    hdirs h0 p hp
  rw [hlen, dist_toC] at hb
  have hnn : (0 : ℝ) ≤ ((distSq p (0, 0) : ℚ) : ℝ) := by
    exact_mod_cast distSq_nonneg p (0, 0)
  push_cast at hb
  have hsq : ((distSq p (0, 0) : ℚ) : ℝ) ≤ (0 + 2 * (minDistance : ℝ) * 200) ^ 2 := by
    have hs := Real.sq_sqrt hnn
    have hsnn := Real.sqrt_nonneg ((distSq p (0, 0) : ℚ) : ℝ)
    rw [← hs]
    exact pow_le_pow_left₀ hsnn hb 2
  have hcast : ((distSq (0, 0) p : ℚ) : ℝ) ≤ (((200 * (2 * minDistance)) ^ 2 : ℚ) : ℝ) := by
    rw [distSq_comm]
    calc ((distSq p (0, 0) : ℚ) : ℝ)
        ≤ (0 + 2 * (minDistance : ℝ) * 200) ^ 2 := hsq
      _ = (((200 * (2 * minDistance)) ^ 2 : ℚ) : ℝ) := by push_cast; ring
  exact_mod_cast hcast

section
attribute [local semireducible] Rat.mul Rat.add Rat.sub Rat.inv Rat.ofScientific

/-- In the grid-snapped engine a single growth step can place a node at
Euclidean distance `sqrt 5 * min_distance > 2 * min_distance` from its
parent: with both attempt directions `(4/5, 3/5)`, the first attempt
creates `(min, min)` (radii `min` and `1.5*min` both snap there), so the
second attempt finds those radii occupied and takes radius `2*min`,
snapped to `(2*min, min)`.  The unsnapped engine's per-hop bound
`2 * min_distance` therefore does not transfer to the snapped engine. -/
theorem suburbs_snapped_hop :
    (growCity suburbsCfg (initLState suburbsCfg)
        ⟨0, [(4 / 5, 3 / 5), (4 / 5, 3 / 5)]⟩).nodePositions =
      [(0, 0), (minDistance, minDistance), (2 * minDistance, minDistance)] ∧
    unitDir (4 / 5, 3 / 5) ∧
    (2 * minDistance) ^ 2 < distSq (0, 0) (2 * minDistance, minDistance) :=
  ⟨by decide, by unfold unitDir; decide, by decide⟩

end
